import Mathlib

/-!
# Verification of the traceability microservice core

Shallow embedding of the Python modules `modules/knowledge_graph.py`,
`modules/document_ai.py` and `api_server_modular.py` of the
gemini-traceability-microservice repository, together with proofs and
refutations of the stated properties of the Detector, Context Expander,
Bounding-Box Resolver, Graph Builder and Traceability Chain Reconstructor.

Modelling conventions:
- Python `str` is Lean `String`; all text manipulation is re-implemented on
  `List Char` by structural recursion so every definition evaluates by kernel
  reduction on concrete inputs.
- Python floats that only ever hold decimal literals (confidences, box
  coordinates) are modelled as `ℚ`.
- A Python value that may be `None` (or an absent dictionary key with no
  semantic default) is an `Option`; `dict.get(k, d)` with a semantically fixed
  default `d` is modelled as a plain field holding the defaulted value.
- Python truthiness of a possibly-missing string is `pyTruthy`.
-/

/-- Truthiness of a possibly-absent Python string: `None` and `""` are falsy. -/
def pyTruthy : Option String → Bool
  | none => false
  | some s => s != ""

/-- The whitespace class of Python's `str.strip` / `\s` (ASCII part; the
unicode spaces never occur in the texts handled here). -/
def pyIsSpace (c : Char) : Bool :=
  c = ' ' || c = '\t' || c = '\n' || c = '\r' || c = '\x0b' || c = '\x0c'

/-- `str.strip()` on a character list: drop whitespace at both ends. -/
def stripCL (l : List Char) : List Char :=
  ((l.dropWhile pyIsSpace).reverse.dropWhile pyIsSpace).reverse

/-- Python `s.strip()`. -/
def pyStrip (s : String) : String := ⟨stripCL s.data⟩

/-- Python `s.lower()` (ASCII case folding, as in all texts handled here). -/
def pyLower (s : String) : String := ⟨s.data.map Char.toLower⟩

/-- Python `s[:n]` (slicing is by characters). -/
def pyTake (n : Nat) (s : String) : String := ⟨s.data.take n⟩

/-- Does `needle` occur as a prefix of `hay`? (character lists) -/
def isPrefixCL : List Char → List Char → Bool
  | [], _ => true
  | _ :: _, [] => false
  | a :: as, b :: bs => a = b && isPrefixCL as bs

/-- Does `needle` occur as a contiguous substring of `hay`?  Models Python's
`needle in hay` (the empty needle matches everywhere). -/
def isInfixCL (needle : List Char) : List Char → Bool
  | [] => isPrefixCL needle []
  | b :: bs => isPrefixCL needle (b :: bs) || isInfixCL needle bs

/-- Python `needle in hay` on strings. -/
def pyInStr (needle hay : String) : Bool := isInfixCL needle.data hay.data

/-- Helper of `collapseWsCL`: the flag records whether the previous character
was whitespace (so that a run contributes a single `' '`). -/
def collapseAux : Bool → List Char → List Char
  | _, [] => []
  | inWs, c :: rest =>
    if pyIsSpace c then
      if inWs then collapseAux true rest else ' ' :: collapseAux true rest
    else c :: collapseAux false rest

/-- Coalesce every whitespace run into one `' '` (`re.sub(r'\s+', ' ', s)`). -/
def collapseWsCL (l : List Char) : List Char := collapseAux false l

/-- `' '.join(text.split())`-style whitespace normalisation as used by the
expander: `re.sub(r'\s+', ' ', text).strip()`. -/
def normalizeWs (s : String) : String := ⟨stripCL (collapseWsCL s.data)⟩

/-- `' '.join(s.lower().split())` — the normalisation used by the fuzzy text
matching helpers. -/
def normJoinLower (s : String) : String := normalizeWs (pyLower s)

/-- `'sep'.join(parts)` for a one-character separator `' '`. -/
def joinSpace : List String → String
  | [] => ""
  | [s] => s
  | s :: rest => s ++ " " ++ joinSpace rest

/-- Python `"{:03d}".format n`: decimal digits zero-padded to width 3. -/
def pad3 (n : Nat) : String :=
  let s := Nat.repr n
  ⟨List.replicate (3 - s.data.length) '0' ++ s.data⟩

/- ==================== Bounding-Box Resolver: merge step ====================
Embeds `merge_bounding_boxes` (modules/document_ai.py). -/

/-- An input bounding-box dictionary: each of the four coordinate keys may be
missing.  (A dictionary with all four keys present is necessarily non-empty,
so Python's `b and all(k in b for k in [...])` reduces to the four
presence checks.) -/
structure RawBBox where
  x_min : Option ℚ
  y_min : Option ℚ
  x_max : Option ℚ
  y_max : Option ℚ
deriving DecidableEq, Repr

/-- A well-formed bounding box. -/
@[ext]
structure BBox where
  x_min : ℚ
  y_min : ℚ
  x_max : ℚ
  y_max : ℚ
deriving DecidableEq, Repr

/-- The validity filter of `merge_bounding_boxes`: keep a box only when all
four of `x_min, y_min, x_max, y_max` are present. -/
def RawBBox.fields? (b : RawBBox) : Option BBox :=
  match b.x_min, b.y_min, b.x_max, b.y_max with
  | some a, some c, some d, some e => some ⟨a, c, d, e⟩
  | _, _, _, _ => none

/-- Python `min` over a list (the empty case is unreachable under the callers'
non-emptiness guards). -/
def pyMinQ : List ℚ → ℚ
  | [] => 0
  | x :: xs => xs.foldl min x

/-- Python `max` over a list (empty case unreachable, as for `pyMinQ`). -/
def pyMaxQ : List ℚ → ℚ
  | [] => 0
  | x :: xs => xs.foldl max x

/-- `merge_bounding_boxes(bboxes)`: drop malformed boxes, return `none`
(Python `{}`) when no valid box remains, else the componentwise envelope. -/
def merge_bounding_boxes (bboxes : List RawBBox) : Option BBox :=
  let valid_bboxes := bboxes.filterMap RawBBox.fields?
  if valid_bboxes.isEmpty then none
  else some
    { x_min := pyMinQ (valid_bboxes.map BBox.x_min)
      y_min := pyMinQ (valid_bboxes.map BBox.y_min)
      x_max := pyMaxQ (valid_bboxes.map BBox.x_max)
      y_max := pyMaxQ (valid_bboxes.map BBox.y_max) }

/- ==================== Graph Builder ====================
Embeds `build_knowledge_graph_from_rag` (modules/knowledge_graph.py). -/

/-- One entry of a chunk's `detected_requirements` list. -/
structure ReqEntity where
  id : Option String
  text : String
  confidence : ℚ
deriving DecidableEq, Repr

/-- One entry of a chunk's `detected_compliance` list.  `id` falls back to
`standard`; `text` and `confidence` have canonical-id-dependent defaults. -/
structure CompEntity where
  id : Option String
  standard : Option String
  text : Option String
  confidence : Option ℚ
deriving DecidableEq, Repr

/-- One entry of a chunk's `relationships` list.  `target_class` defaults to
`"UNKNOWN"`, `rel_type` (the `type` key) to `"RELATED"` and `confidence` to
`0.7`, so those defaults are folded into the fields. -/
structure RelIn where
  source_id : Option String
  target_id : Option String
  target_class : String
  rel_type : String
  confidence : ℚ
  edge_id : Option String
  page : Option Nat
deriving DecidableEq, Repr

/-- One chunk of the RAG output.  (`page_number` defaults to 1 and `chunk_id`
to `""`; the `node_id` computed by the source is dead code and omitted.) -/
structure ChunkIn where
  page_number : Nat
  chunk_id : String
  detected_requirements : List ReqEntity
  detected_compliance : List CompEntity
  relationships : List RelIn
deriving DecidableEq, Repr

/-- One externally supplied test-case draft. -/
structure TestCaseIn where
  id : Option String
  title : String
  description : String
  category : String
  priority : String
  derived_from : Option String
deriving DecidableEq, Repr

/-- A node of the built graph.  Optional fields model dictionary keys that are
present only for some node kinds. -/
structure GraphNode where
  id : String
  type : String
  title : String
  text : String
  confidence : ℚ
  page_number : Option Nat
  priority : Option String
  source : Option String
  standard_type : Option String
  category : Option String
deriving DecidableEq, Repr

/-- An edge of the built graph.  `from_`/`to_` are the `from`/`to` keys;
`etype` is the optional `type` key read by the chain reconstructor (never set
by the Graph Builder itself). -/
structure GraphEdge where
  id : String
  from_ : String
  to_ : String
  relation : String
  confidence : ℚ
  source : String
  page : Option Nat
  etype : Option String
deriving DecidableEq, Repr

/-- The `compliance_normalization` alias table (variations → canonical id). -/
def compliance_normalization : List (String × String) :=
  [("gdpr", "GDPR:2016/679"),
   ("gdpr:2016/679", "GDPR:2016/679"),
   ("general data protection regulation", "GDPR:2016/679"),
   ("ccpa", "CCPA:2018"),
   ("ccpa:2018", "CCPA:2018"),
   ("california consumer privacy act", "CCPA:2018"),
   ("hipaa", "HIPAA:1996"),
   ("hipaa:1996", "HIPAA:1996"),
   ("health insurance portability", "HIPAA:1996"),
   ("fda", "FDA:21CFR11"),
   ("fda 21 cfr part 11", "FDA:21CFR11"),
   ("21 cfr part 11", "FDA:21CFR11"),
   ("soc2", "SOC2:TypeII"),
   ("soc 2", "SOC2:TypeII"),
   ("iso27001", "ISO:27001"),
   ("iso 27001", "ISO:27001")]

/-- `normalize_compliance_id(raw_id)`: falsy ids become `"UNKNOWN"`, known
aliases (after lowercasing and stripping) map to the canonical id,
unrecognised ids pass through unchanged. -/
def normalize_compliance_id (raw_id : String) : String :=
  if raw_id = "" then "UNKNOWN"
  else (compliance_normalization.lookup (pyStrip (pyLower raw_id))).getD raw_id

/-- The `standard_type` prefix dispatch duplicated at both compliance-node
creation sites of the source. -/
def standardTypeOf (canonical_id : String) : String :=
  if isPrefixCL "GDPR".data canonical_id.data then "GDPR"
  else if isPrefixCL "CCPA".data canonical_id.data then "CCPA"
  else if isPrefixCL "HIPAA".data canonical_id.data then "HIPAA"
  else if isPrefixCL "FDA".data canonical_id.data then "FDA"
  else if isPrefixCL "SOC2".data canonical_id.data then "SOC2"
  else if isPrefixCL "ISO".data canonical_id.data then "ISO"
  else "UNKNOWN"

/-- The mutable state threaded through the builder's fold: the node and edge
accumulators, and the three dedup structures (`seen_requirements` set,
`seen_compliance` insertion-ordered map canonical-id → node id,
`seen_test_cases` set). -/
structure BuildState where
  nodes : List GraphNode
  edges : List GraphEdge
  seen_requirements : List String
  seen_compliance : List (String × String)
  seen_test_cases : List String
deriving DecidableEq, Repr

/-- Step 1 of the per-chunk loop: an unseen, truthy requirement id mints a
REQUIREMENT node. -/
def addRequirement (page_number : Nat) (st : BuildState) (r : ReqEntity) : BuildState :=
  match r.id with
  | none => st
  | some req_id =>
    if req_id != "" && !(st.seen_requirements.contains req_id) then
      { st with
        nodes := st.nodes ++
          [{ id := req_id
             type := "REQUIREMENT"
             title := if r.text.length > 100 then pyTake 100 r.text ++ "..." else r.text
             text := r.text
             confidence := r.confidence
             page_number := some page_number
             priority := some (if pyInStr "critical" (pyLower r.text) then "High" else "Medium")
             source := none
             standard_type := none
             category := none }]
        seen_requirements := st.seen_requirements ++ [req_id] }
    else st

/-- Step 2a: an unseen canonical compliance id from `detected_compliance`
mints a COMPLIANCE_STANDARD node with synthetic id `COMP_NNN`. -/
def addCompliance2a (page_number : Nat) (st : BuildState) (c : CompEntity) : BuildState :=
  let comp_raw_id := (c.id.getD (c.standard.getD ""))
  let comp_canonical_id := normalize_compliance_id comp_raw_id
  if comp_canonical_id != "" && (st.seen_compliance.lookup comp_canonical_id).isNone then
    let comp_kg_id := "COMP_" ++ pad3 (st.seen_compliance.length + 1)
    { st with
      nodes := st.nodes ++
        [{ id := comp_kg_id
           type := "COMPLIANCE_STANDARD"
           title := comp_canonical_id
           text := c.text.getD ("Compliance standard: " ++ comp_canonical_id)
           confidence := c.confidence.getD (8/10)
           page_number := some page_number
           priority := none
           source := some "detected_compliance"
           standard_type := some (standardTypeOf comp_canonical_id)
           category := none }]
      seen_compliance := st.seen_compliance ++ [(comp_canonical_id, comp_kg_id)] }
  else st

/-- Step 2b: an unseen canonical compliance id appearing as the target of a
COMPLIANCE_STANDARD-classed relationship also mints a COMPLIANCE_STANDARD
node. -/
def addCompliance2b (page_number : Nat) (st : BuildState) (rel : RelIn) : BuildState :=
  match rel.target_id with
  | none => st
  | some target_id =>
    if rel.target_class = "COMPLIANCE_STANDARD" && target_id != "" then
      let comp_canonical_id := normalize_compliance_id target_id
      if (st.seen_compliance.lookup comp_canonical_id).isNone then
        let comp_kg_id := "COMP_" ++ pad3 (st.seen_compliance.length + 1)
        { st with
          nodes := st.nodes ++
            [{ id := comp_kg_id
               type := "COMPLIANCE_STANDARD"
               title := comp_canonical_id
               text := "Compliance standard: " ++ comp_canonical_id
               confidence := rel.confidence
               page_number := some page_number
               priority := none
               source := some "chunk_relationships"
               standard_type := some (standardTypeOf comp_canonical_id)
               category := none }]
          seen_compliance := st.seen_compliance ++ [(comp_canonical_id, comp_kg_id)] }
      else st
    else st

/-- Step 3: each relationship with truthy endpoints becomes an edge; a
COMPLIANCE_STANDARD-classed target id is rewritten through `seen_compliance`. -/
def addEdgeFromRel (page_number : Nat) (st : BuildState) (rel : RelIn) : BuildState :=
  let edge_id := rel.edge_id.getD ("edge_" ++ pad3 (st.edges.length + 1))
  if pyTruthy rel.source_id && pyTruthy rel.target_id then
    let source_id := rel.source_id.getD ""
    let target_id := rel.target_id.getD ""
    let kg_target_id :=
      if rel.target_class = "COMPLIANCE_STANDARD" then
        (st.seen_compliance.lookup (normalize_compliance_id target_id)).getD target_id
      else target_id
    { st with
      edges := st.edges ++
        [{ id := edge_id
           from_ := source_id
           to_ := kg_target_id
           relation := rel.rel_type
           confidence := rel.confidence
           source := "chunk_relationships"
           page := some (rel.page.getD page_number)
           etype := none }] }
  else st

/-- The per-chunk body of the builder's main loop (steps 1, 2a, 2b, 3 in
source order). -/
def processChunk (st : BuildState) (chunk : ChunkIn) : BuildState :=
  let st1 := chunk.detected_requirements.foldl (addRequirement chunk.page_number) st
  let st2 := chunk.detected_compliance.foldl (addCompliance2a chunk.page_number) st1
  let st3 := chunk.relationships.foldl (addCompliance2b chunk.page_number) st2
  chunk.relationships.foldl (addEdgeFromRel chunk.page_number) st3

/-- Step 4: an unseen test-case id mints a TEST_CASE node (confidence fixed
0.9); when its `derived_from` requirement id is already a seen requirement, a
`VERIFIED_BY` edge is appended as well. -/
def addTestCase (st : BuildState) (tc : TestCaseIn) : BuildState :=
  let test_id := tc.id.getD ("TC_" ++ pad3 (st.seen_test_cases.length + 1))
  if !(st.seen_test_cases.contains test_id) then
    let st' :=
      { st with
        nodes := st.nodes ++
          [{ id := test_id
             type := "TEST_CASE"
             title := tc.title
             text := tc.description
             confidence := 9/10
             page_number := none
             priority := some tc.priority
             source := none
             standard_type := none
             category := some tc.category }]
        seen_test_cases := st.seen_test_cases ++ [test_id] }
    match tc.derived_from with
    | none => st'
    | some derived_from =>
      if derived_from != "" && st'.seen_requirements.contains derived_from then
        { st' with
          edges := st'.edges ++
            [{ id := "edge_" ++ pad3 (st'.edges.length + 1)
               from_ := test_id
               to_ := derived_from
               relation := "VERIFIED_BY"
               confidence := 9/10
               source := "test_generation"
               page := none
               etype := none }] }
      else st'
  else st

/-- Insertion-ordered dictionary counting: `d[k] = d.get(k, 0) + 1`. -/
def bumpCount (m : List (String × Nat)) (k : String) : List (String × Nat) :=
  match m with
  | [] => [(k, 1)]
  | (k', v) :: rest => if k' = k then (k', v + 1) :: rest else (k', v) :: bumpCount rest k

/-- Cardinality of the set of elements of a list (`len(set(...))`). -/
def countDistinctNat (l : List Nat) : Nat :=
  (l.foldl (fun seen p => if seen.contains p then seen else seen ++ [p]) []).length

/-- `round(q, 2)`.  (Python rounds its binary floats half-to-even; on the
exact decimal confidences appearing here the tie case never arises, and no
claim depends on the rounding mode.) -/
def round2 (q : ℚ) : ℚ := (round (q * 100) : ℤ) / 100

/-- The `metadata` dictionary of a successful build. -/
structure KGMetadata where
  total_nodes : Nat
  total_edges : Nat
  requirement_nodes : Nat
  compliance_nodes : Nat
  test_case_nodes : Nat
  graph_density : ℚ
  avg_confidence : ℚ
  cross_page_links : Nat
  compliance_by_type : List (String × Nat)
  edges_by_relation : List (String × Nat)
  top_connected_nodes : List (String × Nat)
  normalized_compliance_count : Nat
  tooltips : List String
deriving DecidableEq, Repr

/-- Step 4 of the builder: the aggregate metadata. -/
def buildMetadata (st : BuildState) : KGMetadata :=
  let nodes := st.nodes
  let edges := st.edges
  let total_nodes := nodes.length
  let total_edges := edges.length
  { total_nodes := total_nodes
    total_edges := total_edges
    requirement_nodes := (nodes.filter (fun n => n.type = "REQUIREMENT")).length
    compliance_nodes := (nodes.filter (fun n => n.type = "COMPLIANCE_STANDARD")).length
    test_case_nodes := (nodes.filter (fun n => n.type = "TEST_CASE")).length
    graph_density := round2 ((total_edges : ℚ) / (max 1 total_nodes : ℚ))
    avg_confidence :=
      if edges.isEmpty then 0
      else round2 ((edges.map GraphEdge.confidence).sum / (max 1 total_edges : ℚ))
    cross_page_links :=
      countDistinctNat (edges.filterMap fun e =>
        match e.page with
        | some p => if p ≠ 0 then some p else none
        | none => none)
    compliance_by_type :=
      (nodes.filter (fun n => n.type = "COMPLIANCE_STANDARD")).foldl
        (fun m n => bumpCount m (n.standard_type.getD "UNKNOWN")) []
    edges_by_relation := edges.foldl (fun m e => bumpCount m e.relation) []
    top_connected_nodes :=
      let node_degrees := edges.foldl
        (fun d e => bumpCount (bumpCount d e.from_) e.to_) []
      (node_degrees.mergeSort (fun a b => b.2 ≤ a.2)).take 5
    normalized_compliance_count := st.seen_compliance.length
    tooltips := [] }

/-- The result dictionary of `build_knowledge_graph_from_rag`.  `metadata =
none` models the empty `{}` of the error branch. -/
structure KGResult where
  status : String
  agent : String
  error : Option String
  nodes : List GraphNode
  edges : List GraphEdge
  metadata : Option KGMetadata
deriving DecidableEq, Repr

/-- `build_knowledge_graph_from_rag(rag_output, test_cases)`.  The input's
`rag_output.get("chunks", [])` is the `chunks` argument (a missing key is the
empty list); `test_cases = none` is Python `None`, and a falsy (empty)
supplied list skips the test-case phase exactly as folding over it does.
The `try/except` of the source cannot fire on well-typed input and is not
modelled. -/
def build_knowledge_graph_from_rag (chunks : List ChunkIn)
    (test_cases : Option (List TestCaseIn) := none) : KGResult :=
  if chunks.isEmpty then
    { status := "error"
      agent := "Traceability-KG-Builder"
      error := some "No chunks available for knowledge graph construction"
      nodes := []
      edges := []
      metadata := none }
  else
    let st0 : BuildState :=
      { nodes := [], edges := [], seen_requirements := []
        seen_compliance := [], seen_test_cases := [] }
    let st1 := chunks.foldl processChunk st0
    let st2 :=
      match test_cases with
      | none => st1
      | some tcs => tcs.foldl addTestCase st1
    { status := "success"
      agent := "Traceability-KG-Builder"
      error := none
      nodes := st2.nodes
      edges := st2.edges
      metadata := some (buildMetadata st2) }

/- ==================== Traceability Chain Reconstructor ====================
Embeds `build_traceability_chain` (api_server_modular.py). -/

/-- A graph snapshot as consumed by the chain reconstructor
(`knowledge_graph.get("nodes", [])` / `.get("edges", [])`). -/
structure KGSnapshot where
  nodes : List GraphNode
  edges : List GraphEdge
deriving DecidableEq, Repr

/-- One chain record.  `direct_relationship` models the presence of the
`"direct_relationship": True` key of the direct records. -/
structure ChainRecord where
  requirement_id : String
  test_case_id : Option String
  test_case_title : Option String
  compliance_standard_id : String
  compliance_standard_name : String
  compliance_standard_type : String
  direct_relationship : Bool
deriving DecidableEq, Repr

/-- `build_traceability_chain(requirement_id, knowledge_graph)`: REQ → TC →
Compliance paths through `VERIFIED_BY`/`ENSURES_COMPLIANCE_WITH` edges
(tolerating lowercase spellings and the alternate `type` key), followed by
direct `GOVERNED_BY` records. -/
def build_traceability_chain (requirement_id : String)
    (knowledge_graph : KGSnapshot) : List ChainRecord :=
  let kg_nodes := knowledge_graph.nodes
  let kg_edges := knowledge_graph.edges
  if kg_nodes.isEmpty || kg_edges.isEmpty then []
  else
    let test_edges := kg_edges.filter fun e =>
      e.from_ = requirement_id &&
        (e.relation = "VERIFIED_BY" || e.relation = "verified_by" ||
         e.etype = some "VERIFIED_BY")
    let chains1 := test_edges.flatMap fun test_edge =>
      let test_id := test_edge.to_
      let test_node := kg_nodes.find? fun n => n.id = test_id && n.type = "TEST_CASE"
      let compliance_edges := kg_edges.filter fun e =>
        e.from_ = test_id &&
          (e.relation = "ENSURES_COMPLIANCE_WITH" ||
           e.relation = "ensures_compliance_with" ||
           e.etype = some "ENSURES_COMPLIANCE_WITH")
      compliance_edges.filterMap fun comp_edge =>
        match kg_nodes.find? fun n => n.id = comp_edge.to_ && n.type = "COMPLIANCE_STANDARD" with
        | none => none
        | some comp_node => some
            { requirement_id := requirement_id
              test_case_id := if test_id != "" then some test_id else none
              test_case_title := some
                (match test_node with
                 | some n => n.title
                 | none => test_id)
              compliance_standard_id := comp_node.id
              compliance_standard_name := comp_node.title
              compliance_standard_type := comp_node.standard_type.getD "UNKNOWN"
              direct_relationship := false }
    let req_to_comp_edges := kg_edges.filter fun e =>
      e.from_ = requirement_id &&
        (e.relation = "GOVERNED_BY" || e.relation = "governed_by" ||
         e.etype = some "GOVERNED_BY")
    let chains2 := req_to_comp_edges.filterMap fun comp_edge =>
      match kg_nodes.find? fun n => n.id = comp_edge.to_ && n.type = "COMPLIANCE_STANDARD" with
      | none => none
      | some comp_node => some
          { requirement_id := requirement_id
            test_case_id := none
            test_case_title := none
            compliance_standard_id := comp_node.id
            compliance_standard_name := comp_node.title
            compliance_standard_type := comp_node.standard_type.getD "UNKNOWN"
            direct_relationship := true }
    chains1 ++ chains2

/- ==================== Context Expander ====================
Embeds `smart_split_sentences`, `is_continuation_sentence`,
`is_complete_thought` and `expand_requirement_context`
(modules/document_ai.py).  The character-scanning helpers take an explicit
`fuel` argument (callers pass `length + 1`, so the `0` case is unreachable);
they consume at least one character per step. -/

/-- Sentence-final punctuation `[.!?]`. -/
def sentPunct (c : Char) : Bool := c = '.' || c = '!' || c = '?'

/-- Strip whitespace on the right only (`str.rstrip()`). -/
def rstripCL (l : List Char) : List Char :=
  (l.reverse.dropWhile pyIsSpace).reverse

/-- Scanner of `re.split(r'([.!?]+\s+)', text)`: produces the alternating
content/separator parts, tagging separators (the captured groups) with
`true`.  A separator is a maximal `[.!?]+` run immediately followed by at
least one whitespace character, which it absorbs entirely; punctuation not
followed by whitespace stays in the content part (the regex backtracking
cannot succeed on a shorter punctuation run, which is still followed by
punctuation). -/
def partsAux : Nat → List Char → List Char → List (List Char × Bool)
  | 0, content, _ => [(content.reverse, false)]
  | _ + 1, content, [] => [(content.reverse, false)]
  | fuel + 1, content, c :: rest =>
    if sentPunct c then
      let after1 := rest.dropWhile sentPunct
      let ws := after1.takeWhile pyIsSpace
      if ws.isEmpty then partsAux fuel (c :: content) rest
      else
        let punct := c :: rest.takeWhile sentPunct
        (content.reverse, false) :: (punct ++ ws, true) ::
          partsAux fuel [] (after1.dropWhile pyIsSpace)
    else partsAux fuel (c :: content) rest

/-- One positional sentence produced by `smart_split_sentences`. -/
structure SentObj where
  text : String
  start_pos : Nat
  end_pos : Nat
deriving DecidableEq, Repr

/-- The part-assembly loop of `smart_split_sentences`: separator parts close
the current sentence (keeping the punctuation, `part.rstrip()`), a trailing
non-blank content part becomes the last sentence.  (A content part can never
match the anchored separator pattern — `re.split` leaves no match inside the
gaps — so the loop's `re.match` test is exactly the separator tag.) -/
def smartSplitLoop : Nat → List Char → List (List Char × Bool) → List SentObj
  | current_pos, current_sentence, [] =>
    if (stripCL current_sentence).isEmpty then []
    else [{ text := ⟨stripCL current_sentence⟩
            start_pos := current_pos
            end_pos := current_pos + current_sentence.length }]
  | current_pos, current_sentence, (part, isSep) :: rest =>
    if isSep then
      let cs := current_sentence ++ rstripCL part
      { text := ⟨stripCL cs⟩
        start_pos := current_pos
        end_pos := current_pos + cs.length } ::
        smartSplitLoop (current_pos + cs.length + 1) [] rest
    else smartSplitLoop current_pos (current_sentence ++ part) rest

/-- `smart_split_sentences(text)`. -/
def smart_split_sentences (text : String) : List SentObj :=
  smartSplitLoop 0 [] (partsAux (text.data.length + 1) [] text.data)

/-- Character class `[a-zA-Z\s&-]` of the heading patterns. -/
def headingClassChar (c : Char) : Bool :=
  c.isAlpha || pyIsSpace c || c = '&' || c = '-'

/-- `re.match(r'^[A-Z][a-zA-Z\s&-]{n,}:', l)` for a lower repetition bound
`lo` and an optional upper bound `hi?`.  Because `':'` is not in the repeated
class, backtracking can only succeed on the maximal class run, so the match
condition is: maximal run length within the bounds and `':'` right after it. -/
def matchHeadingColon (lo : Nat) (hi? : Option Nat) (l : List Char) : Bool :=
  match l with
  | [] => false
  | c :: rest =>
    if c.isUpper then
      let k := (rest.takeWhile headingClassChar).length
      decide (lo ≤ k) && (match hi? with | none => true | some hi => decide (k ≤ hi)) &&
        (rest.drop k).head? = some ':'
    else false

/-- `re.match(r'^\d+\.', l)`: a maximal digit run then a literal dot (the
class excludes `'.'`, so only the maximal run can succeed). -/
def matchNumDot (l : List Char) : Bool :=
  let ds := l.takeWhile Char.isDigit
  !ds.isEmpty && (l.drop ds.length).head? = some '.'

/-- `re.match(r'^\([a-z0-9]+\)', l)`. -/
def matchParenItem (l : List Char) : Bool :=
  match l with
  | '(' :: rest =>
    let run := rest.takeWhile (fun c => c.isLower || c.isDigit)
    !run.isEmpty && (rest.drop run.length).head? = some ')'
  | _ => false

/-- `re.match(r'^[IVX]+\.', l)`. -/
def matchRoman (l : List Char) : Bool :=
  let run := l.takeWhile (fun c => c = 'I' || c = 'V' || c = 'X')
  !run.isEmpty && (l.drop run.length).head? = some '.'

/-- The five `section_break_patterns` of `is_continuation_sentence`
(matched without `re.IGNORECASE`). -/
def matchesSectionBreak (l : List Char) : Bool :=
  matchNumDot l ||
  (match l with
   | c :: _ => c = '•' || c = '-' || c = '*' || c = '○' || c = '●'
   | [] => false) ||
  matchHeadingColon 2 none l ||
  matchParenItem l ||
  matchRoman l

/-- `^word\s+` — an alternation word followed by at least one whitespace
character (applied to an already lowercased list). -/
def wordThenWs (w : List Char) (l : List Char) : Bool :=
  isPrefixCL w l &&
    (match l.drop w.length with
     | c :: _ => pyIsSpace c
     | [] => false)

/-- The tail `\s*[,:]?\s+` of the linking-adverb pattern.  With backtracking
it succeeds exactly when the remainder starts with whitespace, or starts with
`','`/`':'` immediately followed by whitespace. -/
def wsCommaWs (l : List Char) : Bool :=
  match l with
  | [] => false
  | c :: rest =>
    pyIsSpace c ||
      ((c = ',' || c = ':') &&
        (match rest with
         | d :: _ => pyIsSpace d
         | [] => false))

/-- The four `continuation_patterns` of `is_continuation_sentence`, matched
with `re.IGNORECASE` (so the final `^[a-z]` accepts any ASCII letter). -/
def matchesContinuation (l : List Char) : Bool :=
  let lower := l.map Char.toLower
  (["and", "or", "but", "yet", "so"].any fun w => wordThenWs w.data lower) ||
  (["it", "this", "these", "they", "that", "which", "who"].any fun w =>
    wordThenWs w.data lower) ||
  (["additionally", "furthermore", "also", "moreover", "however", "therefore"].any fun w =>
    isPrefixCL w.data lower && wsCommaWs (lower.drop w.data.length)) ||
  (match l with
   | c :: _ => c.isAlpha
   | [] => false)

/-- `is_continuation_sentence(current, next_sent)`.  (`current` is unused by
the source as well.) -/
def is_continuation_sentence (current next_sent : String) : Bool :=
  if next_sent = "" then false
  else
    let ns := stripCL next_sent.data
    if ns.isEmpty then false
    else if matchesSectionBreak ns then false
    else if matchesContinuation ns then true
    else false

/-- Words of a string: `str.split()` (split on whitespace runs, no empty
words).  Explicit fuel, as for the other scanners. -/
def pyWordsAux : Nat → List Char → List (List Char)
  | 0, _ => []
  | _ + 1, [] => []
  | fuel + 1, c :: rest =>
    if pyIsSpace c then pyWordsAux fuel rest
    else
      (c :: rest.takeWhile (fun x => !pyIsSpace x)) ::
        pyWordsAux fuel (rest.dropWhile (fun x => !pyIsSpace x))

/-- `str.split()` of a character list. -/
def pyWords (l : List Char) : List (List Char) := pyWordsAux (l.length + 1) l

/-- `is_complete_thought(text)`: non-empty, stripped length ≥ 20, ends in
`[.!?]`, at least three whitespace-separated words. -/
def is_complete_thought (text : String) : Bool :=
  let stripped := stripCL text.data
  if text = "" || stripped.length < 20 then false
  else if !(match stripped.getLast? with
            | some c => sentPunct c
            | none => false) then false
  else if (pyWords stripped).length < 3 then false
  else true

/-- The `for idx, sent_obj in enumerate(sentences)` search loop: first index
(counting from `i`) whose sentence satisfies `p`. -/
def findIdxFrom (p : SentObj → Bool) : Nat → List SentObj → Option Nat
  | _, [] => none
  | i, x :: rest => if p x then some i else findIdxFrom p (i + 1) rest

/-- The fuzzy-location test of `expand_requirement_context`:
`initial_normalized[:50] in sent_normalized[:60]` or vice versa. -/
def fuzzyLocate (initial_normalized : String) (sent : SentObj) : Bool :=
  let sent_normalized := normJoinLower sent.text
  isInfixCL (pyTake 50 initial_normalized).data (pyTake 60 sent_normalized).data ||
  isInfixCL (pyTake 50 sent_normalized).data (pyTake 60 initial_normalized).data

/-- The greedy look-ahead loop of `expand_requirement_context`.  `iters` is
the number of remaining loop iterations (`range(1, max_sentences)` runs
`max_sentences - 1` times); `acc` always starts as `[base sentence]`. -/
def expandLoop (sentences : List SentObj) (max_chars : Nat) :
    Nat → Nat → List String → Nat → List String
  | _, 0, acc, _ => acc
  | next_idx, iters + 1, acc, current_length =>
    match sentences[next_idx]? with
    | none => acc
    | some sobj =>
      let next_sent := sobj.text
      let current_sent := (acc.getLast?).getD ""
      if !(is_continuation_sentence current_sent next_sent) then acc
      else if current_length + next_sent.length + 1 > max_chars then acc
      else
        let acc2 := acc ++ [next_sent]
        let combined := joinSpace acc2
        if is_complete_thought combined && combined.length > 80 then acc2
        else expandLoop sentences max_chars (next_idx + 1) iters acc2
          (current_length + next_sent.length + 1)

/-- `expand_requirement_context(initial_sentence, full_line_text,
max_sentences, max_chars)`. -/
def expand_requirement_context (initial_sentence : String)
    (full_line_text : String) (max_sentences : Nat := 3)
    (max_chars : Nat := 300) : String :=
  if initial_sentence = "" || full_line_text = "" then initial_sentence
  else
    let initial_sentence := pyStrip initial_sentence
    let full_line_text := pyStrip full_line_text
    if is_complete_thought initial_sentence && initial_sentence.length > 50 then
      initial_sentence
    else
      let sentences := smart_split_sentences full_line_text
      if sentences.isEmpty then initial_sentence
      else
        let initial_normalized := normJoinLower initial_sentence
        match findIdxFrom (fuzzyLocate initial_normalized) 0 sentences with
        | none => initial_sentence
        | some initial_idx =>
          let base := ((sentences[initial_idx]?).map SentObj.text).getD ""
          let expanded_sentences := expandLoop sentences max_chars
            (initial_idx + 1) (max_sentences - 1) [base] base.length
          normalizeWs (joinSpace expanded_sentences)

/- ==================== Requirement Detector ====================
Embeds `detect_requirements` (modules/document_ai.py) for calls without
layout elements (`page_layout_elements=None`), where the bounding-box
attachment branch is skipped; ids, texts, types and confidences are
unaffected by that branch.  The configuration constants are modelled at
their defaults (no environment overrides). -/

/-- `ENABLE_CONTEXT_EXPANSION` (default `'true'`). -/
def ENABLE_CONTEXT_EXPANSION : Bool := true

/-- `MAX_EXPANSION_SENTENCES` (default 3). -/
def MAX_EXPANSION_SENTENCES : Nat := 3

/-- `MAX_EXPANSION_CHARS` (default 300). -/
def MAX_EXPANSION_CHARS : Nat := 300

/-- A word character for `\b` boundaries: `[a-zA-Z0-9_]`. -/
def isWordChar (c : Char) : Bool := c.isAlpha || c.isDigit || c = '_'

/-- `re.search(r'\b(w1|w2|...)\b', s)` for literal alternatives: scan every
position whose predecessor is not a word character for an alternative
followed by a non-word character (or the end).  Words are expected already
lowercased, as is the scanned list. -/
def searchWordB (words : List (List Char)) : Bool → List Char → Bool
  | _, [] => false
  | prevIsWord, c :: rest =>
    (!prevIsWord &&
      words.any fun w =>
        isPrefixCL w (c :: rest) &&
          (match (c :: rest).drop w.length with
           | [] => true
           | d :: _ => !isWordChar d)) ||
    searchWordB words (isWordChar c) rest

/-- The `modal_verbs` alternatives. -/
def modal_verbs : List String :=
  ["shall", "must", "should", "will", "may",
   "needs to", "required to", "has to", "ought to", "supposed to"]

/-- The `action_verbs` list. -/
def action_verbs : List String :=
  ["provide", "support", "enable", "allow", "implement",
   "ensure", "guarantee", "deliver", "offer", "include",
   "facilitate", "perform", "execute", "process", "handle"]

/-- `re.search(modal_pattern, sentence, re.IGNORECASE)`. -/
def containsModal (sentence : String) : Bool :=
  searchWordB (modal_verbs.map (fun w => w.data)) false (pyLower sentence).data

/-- `re.search(action_pattern, sentence, re.IGNORECASE)`: the `(?:s|ing)?`
suffix turns each verb into the three literal alternatives `v`, `vs`,
`ving`. -/
def containsAction (sentence : String) : Bool :=
  searchWordB
    ((action_verbs.flatMap fun v => [v, v ++ "s", v ++ "ing"]).map fun w => w.data)
    false (pyLower sentence).data

/-- The secondary keyword filter of the action-verb branch. -/
def actionKeywordGate (sentence : String) : Bool :=
  ["system", "user", "feature", "application", "data", "service", "platform"].any
    fun kw => pyInStr kw (pyLower sentence)

/-- `re.match(r'^\s*[\-\*•○]\s+', sentence)`. -/
def matchBulletGlyph (l : List Char) : Bool :=
  let r := l.dropWhile pyIsSpace
  match r with
  | c :: d :: _ => (c = '-' || c = '*' || c = '•' || c = '○') && pyIsSpace d
  | _ => false

/-- `re.match(r'^\s*[0-9a-z]+[\.\)]\s+', sentence)` (the terminator classes
are disjoint from `[0-9a-z]`, so only the maximal run can match). -/
def matchNumberedItem (l : List Char) : Bool :=
  let r := l.dropWhile pyIsSpace
  let run := r.takeWhile fun c => c.isDigit || c.isLower
  if run.isEmpty then false
  else
    match r.drop run.length with
    | p :: w :: _ => (p = '.' || p = ')') && pyIsSpace w
    | _ => false

/-- `re.match(section_pattern, line)` with
`section_pattern = r'^[A-Z][a-zA-Z\s&-]{3,40}:(?!\n)'`; a line never contains
`'\n'` (the text was split on it), so the negative lookahead always holds. -/
def matchSectionPattern (l : List Char) : Bool := matchHeadingColon 3 (some 40) l

/-- One detected requirement (the `bounding_box` key is absent in the
layout-free calls modelled here). -/
structure DetectedReq where
  id : String
  text : String
  rtype : String
  confidence : ℚ
deriving DecidableEq, Repr

/-- The mutable state of the detection loop: the global-to-one-call
`req_id_counter` (initialised to 1), the `seen_texts` dedup set and the
output list. -/
structure DetectState where
  req_id_counter : Nat
  seen_texts : List String
  requirements : List DetectedReq
deriving DecidableEq, Repr

/-- Append one detection: id `REQ-{counter:03d}`, then increment the
counter and remember `dedup_text` in `seen_texts`. -/
def addDetected (st : DetectState) (dedup_text req_text rtype : String)
    (confidence : ℚ) : DetectState :=
  { req_id_counter := st.req_id_counter + 1
    seen_texts := st.seen_texts ++ [dedup_text]
    requirements := st.requirements ++
      [{ id := "REQ-" ++ pad3 st.req_id_counter
         text := req_text
         rtype := rtype
         confidence := confidence }] }

/-- The per-sentence body of `detect_requirements` (modal / action / bullet
branches, `elif`-chained; the context passed to the expander is the full
page text). -/
def processSentence (text : String) (st : DetectState) (raw_sentence : String) :
    DetectState :=
  let sentence := pyStrip raw_sentence
  if sentence = "" || sentence.length < 15 then st
  else if st.seen_texts.contains sentence then st
  else if containsModal sentence then
    let expanded_text :=
      if ENABLE_CONTEXT_EXPANSION then
        expand_requirement_context sentence text
          MAX_EXPANSION_SENTENCES MAX_EXPANSION_CHARS
      else sentence
    addDetected st expanded_text expanded_text "MODAL_VERB" (85/100)
  else if containsAction sentence then
    if actionKeywordGate sentence then
      let expanded_text :=
        if ENABLE_CONTEXT_EXPANSION then
          expand_requirement_context sentence text
            MAX_EXPANSION_SENTENCES MAX_EXPANSION_CHARS
        else sentence
      addDetected st expanded_text expanded_text "ACTION_VERB" (7/10)
    else st
  else if matchBulletGlyph sentence.data || matchNumberedItem sentence.data then
    if sentence.length > 15 then
      let expanded_text :=
        if ENABLE_CONTEXT_EXPANSION then
          expand_requirement_context sentence text
            MAX_EXPANSION_SENTENCES MAX_EXPANSION_CHARS
        else sentence
      addDetected st expanded_text expanded_text "BULLET_POINT" (7/10)
    else st
  else st

/-- `re.split(r'[.!?]\s+', line)`: one punctuation character followed by a
whitespace run separates sentences (fuelled scanner). -/
def reSplitPW : Nat → List Char → List Char → List String
  | 0, content, _ => [⟨content.reverse⟩]
  | _ + 1, content, [] => [⟨content.reverse⟩]
  | fuel + 1, content, c :: rest =>
    if sentPunct c then
      match rest with
      | d :: _ =>
        if pyIsSpace d then
          (⟨content.reverse⟩ : String) :: reSplitPW fuel [] (rest.dropWhile pyIsSpace)
        else reSplitPW fuel (c :: content) rest
      | [] => reSplitPW fuel (c :: content) rest
    else reSplitPW fuel (c :: content) rest

/-- The per-line body of `detect_requirements`: the section-header check,
then the sentence loop over `re.split(r'[.!?]\s+', line)`. -/
def processLine (text : String) (st : DetectState) (raw_line : String) :
    DetectState :=
  let line := pyStrip raw_line
  if line = "" || line.length < 10 then st
  else
    let st1 :=
      if matchSectionPattern line.data then
        let req_text := pyStrip ⟨line.data.takeWhile (fun c => c != ':')⟩
        if !(st.seen_texts.contains req_text) && req_text.length > 5 then
          addDetected st req_text (pyTake 200 line) "SECTION_HEADER" (3/4)
        else st
      else st
    let sentences := reSplitPW (line.data.length + 1) [] line.data
    sentences.foldl (processSentence text) st1

/-- `text.split('\n')` (keeps empty lines, as Python's `split` does). -/
def splitNlAux : Nat → List Char → List Char → List String
  | 0, content, _ => [⟨content.reverse⟩]
  | _ + 1, content, [] => [⟨content.reverse⟩]
  | fuel + 1, content, c :: rest =>
    if c = '\n' then (⟨content.reverse⟩ : String) :: splitNlAux fuel [] rest
    else splitNlAux fuel (c :: content) rest

/-- `detect_requirements(text)` (layout-free call): scan line by line, then
sentence by sentence; the id counter starts at 1 on every call. -/
def detect_requirements (text : String) : List DetectedReq :=
  let lines := splitNlAux (text.data.length + 1) [] text.data
  (lines.foldl (processLine text)
    { req_id_counter := 1, seen_texts := [], requirements := [] }).requirements

/- ==================== Concrete inputs used by the claims ==================== -/

/-- A relationship relating `REQ-001` to the compliance mention `t`. -/
def relToCompliance (t : String) : RelIn :=
  { source_id := some "REQ-001", target_id := some t
    target_class := "COMPLIANCE_STANDARD", rel_type := "REQUIRES_COMPLIANCE"
    confidence := 7/10, edge_id := none, page := none }

/-- The detected requirement `REQ-001` used by several concrete runs. -/
def c3_req_entity : ReqEntity :=
  { id := some "REQ-001", text := "The system shall encrypt data.", confidence := 85/100 }

/-- First chunk of the GDPR-normalization run: detects `REQ-001`, carries a
`gdpr:2016/679` compliance mention and relates `REQ-001` to `GDPR`. -/
def c3_chunk1 : ChunkIn :=
  { page_number := 1, chunk_id := "chunk_001"
    detected_requirements := [c3_req_entity]
    detected_compliance :=
      [{ id := some "gdpr:2016/679", standard := none, text := none, confidence := none }]
    relationships := [relToCompliance "GDPR"] }

/-- Second chunk: relates `REQ-001` to `General Data Protection Regulation`. -/
def c3_chunk2 : ChunkIn :=
  { page_number := 2, chunk_id := "chunk_002"
    detected_requirements := [], detected_compliance := []
    relationships := [relToCompliance "General Data Protection Regulation"] }

/-- The graph built from the two GDPR chunks. -/
def c3_result : KGResult := build_knowledge_graph_from_rag [c3_chunk1, c3_chunk2] none

/-- The three-node snapshot of the chain-reconstruction example:
`REQ-001 →(VERIFIED_BY) TC-1 →(ENSURES_COMPLIANCE_WITH) COMP_001`. -/
def c4_snapshot : KGSnapshot :=
  { nodes :=
      [{ id := "REQ-001", type := "REQUIREMENT", title := "Req one", text := "t",
         confidence := 85/100, page_number := some 1, priority := some "Medium",
         source := none, standard_type := none, category := none },
       { id := "TC-1", type := "TEST_CASE", title := "Test one", text := "d",
         confidence := 9/10, page_number := none, priority := some "High",
         source := none, standard_type := none, category := some "Security Tests" },
       { id := "COMP_001", type := "COMPLIANCE_STANDARD", title := "GDPR:2016/679",
         text := "c", confidence := 8/10, page_number := some 1, priority := none,
         source := some "detected_compliance", standard_type := some "GDPR",
         category := none }]
    edges :=
      [{ id := "e1", from_ := "REQ-001", to_ := "TC-1", relation := "VERIFIED_BY",
         confidence := 9/10, source := "test_generation", page := none, etype := none },
       { id := "e2", from_ := "TC-1", to_ := "COMP_001",
         relation := "ENSURES_COMPLIANCE_WITH", confidence := 8/10, source := "x",
         page := none, etype := none }] }

/- ==================== Claim theorems ==================== -/

/-- C10: a Graph Builder input with an empty (or missing, which the source
defaults to empty) chunk list yields `status = "error"` with empty node and
edge lists and empty (`none`) metadata, for every test-case argument. -/
theorem C10_empty_chunks_error (test_cases : Option (List TestCaseIn)) :
    build_knowledge_graph_from_rag [] test_cases =
      { status := "error", agent := "Traceability-KG-Builder"
        error := some "No chunks available for knowledge graph construction"
        nodes := [], edges := [], metadata := none } := rfl

/-- C4: on the snapshot with the single `VERIFIED_BY` edge `REQ-001 → TC-1`
and the single `ENSURES_COMPLIANCE_WITH` edge `TC-1 → COMP_001`, the chain
reconstructor queried with `REQ-001` returns exactly one record linking the
requirement, the test case and the compliance standard. -/
theorem C4_chain_single_record :
    build_traceability_chain "REQ-001" c4_snapshot =
      [{ requirement_id := "REQ-001", test_case_id := some "TC-1"
         test_case_title := some "Test one"
         compliance_standard_id := "COMP_001"
         compliance_standard_name := "GDPR:2016/679"
         compliance_standard_type := "GDPR", direct_relationship := false }] := by
  decide

/-- C3: `"GDPR"`, `"gdpr:2016/679"` and `"General Data Protection
Regulation"` all normalize to `GDPR:2016/679`, and the run over the two
chunks relating `REQ-001` to GDPR mentions produces exactly one
COMPLIANCE_STANDARD node (id `COMP_001`, titled `GDPR:2016/679`) with both
of the run's two edges pointing at it. -/
theorem C3_gdpr_normalization_single_node :
    normalize_compliance_id "GDPR" = "GDPR:2016/679" ∧
    normalize_compliance_id "gdpr:2016/679" = "GDPR:2016/679" ∧
    normalize_compliance_id "General Data Protection Regulation" = "GDPR:2016/679" ∧
    (c3_result.nodes.filter fun n => n.type = "COMPLIANCE_STANDARD").map
        (fun n => (n.id, n.title)) = [("COMP_001", "GDPR:2016/679")] ∧
    (c3_result.edges.filter fun e => e.to_ = "COMP_001").length = 2 ∧
    c3_result.edges.length = 2 := by
  refine ⟨by decide, by decide, by decide, by decide, by decide, by decide⟩

/- ==================== C6 support lemmas ==================== -/

theorem foldl_min_le_init (l : List ℚ) : ∀ a : ℚ, l.foldl min a ≤ a := by
  induction l with
  | nil => intro a; simp
  | cons c cs ih =>
    intro a
    calc (c :: cs).foldl min a = cs.foldl min (min a c) := rfl
    _ ≤ min a c := ih (min a c)
    _ ≤ a := min_le_left a c

theorem foldl_min_le_mem (l : List ℚ) : ∀ a : ℚ, ∀ y ∈ l, l.foldl min a ≤ y := by
  induction l with
  | nil => intro a y hy; simp at hy
  | cons c cs ih =>
    intro a y hy
    rcases List.mem_cons.mp hy with h | h
    · subst h
      calc (y :: cs).foldl min a = cs.foldl min (min a y) := rfl
      _ ≤ min a y := foldl_min_le_init cs (min a y)
      _ ≤ y := min_le_right a y
    · exact ih (min a c) y h

theorem foldl_min_mem (l : List ℚ) : ∀ a : ℚ, l.foldl min a = a ∨ l.foldl min a ∈ l := by
  induction l with
  | nil => intro a; left; rfl
  | cons c cs ih =>
    intro a
    rcases ih (min a c) with h | h
    · rcases min_choice a c with hm | hm
      · left; rw [List.foldl_cons, h, hm]
      · right; rw [List.foldl_cons, h, hm]; exact List.mem_cons_self c cs
    · right; exact List.mem_cons_of_mem c h

theorem init_le_foldl_max (l : List ℚ) : ∀ a : ℚ, a ≤ l.foldl max a := by
  induction l with
  | nil => intro a; simp
  | cons c cs ih =>
    intro a
    calc a ≤ max a c := le_max_left a c
    _ ≤ cs.foldl max (max a c) := ih (max a c)
    _ = (c :: cs).foldl max a := rfl

theorem mem_le_foldl_max (l : List ℚ) : ∀ a : ℚ, ∀ y ∈ l, y ≤ l.foldl max a := by
  induction l with
  | nil => intro a y hy; simp at hy
  | cons c cs ih =>
    intro a y hy
    rcases List.mem_cons.mp hy with h | h
    · subst h
      calc y ≤ max a y := le_max_right a y
      _ ≤ cs.foldl max (max a y) := init_le_foldl_max cs (max a y)
      _ = (y :: cs).foldl max a := rfl
    · exact ih (max a c) y h

theorem foldl_max_mem (l : List ℚ) : ∀ a : ℚ, l.foldl max a = a ∨ l.foldl max a ∈ l := by
  induction l with
  | nil => intro a; left; rfl
  | cons c cs ih =>
    intro a
    rcases ih (max a c) with h | h
    · rcases max_choice a c with hm | hm
      · left; rw [List.foldl_cons, h, hm]
      · right; rw [List.foldl_cons, h, hm]; exact List.mem_cons_self c cs
    · right; exact List.mem_cons_of_mem c h

theorem pyMinQ_le (l : List ℚ) (y : ℚ) (hy : y ∈ l) : pyMinQ l ≤ y := by
  cases l with
  | nil => simp at hy
  | cons x xs =>
    rcases List.mem_cons.mp hy with h | h
    · subst h; exact foldl_min_le_init xs y
    · exact foldl_min_le_mem xs x y h

theorem pyMinQ_mem (l : List ℚ) (hl : l ≠ []) : pyMinQ l ∈ l := by
  cases l with
  | nil => exact absurd rfl hl
  | cons x xs =>
    rcases foldl_min_mem xs x with h | h
    · rw [show pyMinQ (x :: xs) = xs.foldl min x from rfl, h]
      exact List.mem_cons_self x xs
    · exact List.mem_cons_of_mem x h

theorem le_pyMaxQ (l : List ℚ) (y : ℚ) (hy : y ∈ l) : y ≤ pyMaxQ l := by
  cases l with
  | nil => simp at hy
  | cons x xs =>
    rcases List.mem_cons.mp hy with h | h
    · subst h; exact init_le_foldl_max xs y
    · exact mem_le_foldl_max xs x y h

theorem pyMaxQ_mem (l : List ℚ) (hl : l ≠ []) : pyMaxQ l ∈ l := by
  cases l with
  | nil => exact absurd rfl hl
  | cons x xs =>
    rcases foldl_max_mem xs x with h | h
    · rw [show pyMaxQ (x :: xs) = xs.foldl max x from rfl, h]
      exact List.mem_cons_self x xs
    · exact List.mem_cons_of_mem x h

theorem pyMinQ_perm (l1 l2 : List ℚ) (p : l1.Perm l2) : pyMinQ l1 = pyMinQ l2 := by
  cases l1 with
  | nil =>
    have : l2 = [] := List.Perm.eq_nil p.symm
    rw [this]
  | cons x xs =>
    have h2 : l2 ≠ [] := by
      intro h; rw [h] at p; exact List.cons_ne_nil x xs (List.Perm.eq_nil p)
    apply le_antisymm
    · exact pyMinQ_le _ _ ((p.mem_iff).mpr (pyMinQ_mem l2 h2))
    · exact pyMinQ_le _ _ ((p.mem_iff).mp (pyMinQ_mem (x :: xs) (List.cons_ne_nil x xs)))

theorem pyMaxQ_perm (l1 l2 : List ℚ) (p : l1.Perm l2) : pyMaxQ l1 = pyMaxQ l2 := by
  cases l1 with
  | nil =>
    have : l2 = [] := List.Perm.eq_nil p.symm
    rw [this]
  | cons x xs =>
    have h2 : l2 ≠ [] := by
      intro h; rw [h] at p; exact List.cons_ne_nil x xs (List.Perm.eq_nil p)
    apply le_antisymm
    · exact le_pyMaxQ _ _ ((p.mem_iff).mp (pyMaxQ_mem (x :: xs) (List.cons_ne_nil x xs)))
    · exact le_pyMaxQ _ _ ((p.mem_iff).mpr (pyMaxQ_mem l2 h2))

theorem merge_eq_none_iff (m : List RawBBox) :
    merge_bounding_boxes m = none ↔ m.filterMap RawBBox.fields? = [] := by
  simp only [merge_bounding_boxes]
  rcases h : m.filterMap RawBBox.fields? with _ | ⟨b, bs⟩ <;> simp [h]

theorem merge_some_fields (l : List RawBBox) (r : BBox)
    (hr : merge_bounding_boxes l = some r) :
    l.filterMap RawBBox.fields? ≠ [] ∧
    r.x_min = pyMinQ ((l.filterMap RawBBox.fields?).map BBox.x_min) ∧
    r.y_min = pyMinQ ((l.filterMap RawBBox.fields?).map BBox.y_min) ∧
    r.x_max = pyMaxQ ((l.filterMap RawBBox.fields?).map BBox.x_max) ∧
    r.y_max = pyMaxQ ((l.filterMap RawBBox.fields?).map BBox.y_max) := by
  simp only [merge_bounding_boxes] at hr
  rcases h : l.filterMap RawBBox.fields? with _ | ⟨b, bs⟩
  · rw [h] at hr; simp at hr
  · rw [h] at hr
    simp only [List.isEmpty_cons, Bool.false_eq_true, if_false, Option.some.injEq] at hr
    subst hr
    exact ⟨List.cons_ne_nil b bs, rfl, rfl, rfl, rfl⟩

theorem merge_perm_eq (l l2 : List RawBBox) (p : l.Perm l2) :
    merge_bounding_boxes l = merge_bounding_boxes l2 := by
  have pf : (l.filterMap RawBBox.fields?).Perm (l2.filterMap RawBBox.fields?) :=
    p.filterMap RawBBox.fields?
  simp only [merge_bounding_boxes]
  rcases h1 : l.filterMap RawBBox.fields? with _ | ⟨b, bs⟩ <;>
    rcases h2 : l2.filterMap RawBBox.fields? with _ | ⟨c, cs⟩
  · simp
  · rw [h1, h2] at pf
    exact absurd (pf.symm.eq_nil) (List.cons_ne_nil c cs)
  · rw [h1, h2] at pf
    exact absurd (pf.eq_nil) (List.cons_ne_nil b bs)
  · rw [h1, h2] at pf
    simp only [List.isEmpty_cons, Bool.false_eq_true, if_false, Option.some.injEq]
    refine BBox.ext ?_ ?_ ?_ ?_
    · exact pyMinQ_perm _ _ (pf.map BBox.x_min)
    · exact pyMinQ_perm _ _ (pf.map BBox.y_min)
    · exact pyMaxQ_perm _ _ (pf.map BBox.x_max)
    · exact pyMaxQ_perm _ _ (pf.map BBox.y_max)

/-- First box of the merge example: `{0.1, 0.2, 0.5, 0.3}`. -/
def c6_box1 : RawBBox :=
  { x_min := some (1/10), y_min := some (2/10)
    x_max := some (5/10), y_max := some (3/10) }

/-- Second box of the merge example: `{0.1, 0.3, 0.5, 0.4}`. -/
def c6_box2 : RawBBox :=
  { x_min := some (1/10), y_min := some (3/10)
    x_max := some (5/10), y_max := some (4/10) }

theorem merge_example_eval :
    merge_bounding_boxes [c6_box1, c6_box2] =
      some { x_min := 1/10, y_min := 2/10, x_max := 5/10, y_max := 4/10 } := by
  simp only [merge_bounding_boxes, c6_box1, c6_box2, RawBBox.fields?,
    List.filterMap, List.isEmpty_cons, Bool.false_eq_true, if_false,
    List.map, pyMinQ, pyMaxQ, List.foldl, Option.some.injEq]
  refine BBox.ext ?_ ?_ ?_ ?_ <;> norm_num

/-- C6: for every bounding-box list, the merge is the componentwise envelope
of the well-formed boxes: the merged coordinates bound every valid box and
are attained by one of them (malformed boxes being ignored by the validity
filter); the result is empty exactly when no valid box remains; the merge is
invariant under permutation of its input; and the example merges
`{0.1, 0.2, 0.5, 0.3}` and `{0.1, 0.3, 0.5, 0.4}` to `{0.1, 0.2, 0.5, 0.4}`. -/
theorem C6_merge_envelope_commutative (l l2 m : List RawBBox) (r : BBox)
    (hperm : l.Perm l2) (hr : merge_bounding_boxes l = some r) :
    (∀ b ∈ l.filterMap RawBBox.fields?,
        r.x_min ≤ b.x_min ∧ r.y_min ≤ b.y_min ∧ b.x_max ≤ r.x_max ∧ b.y_max ≤ r.y_max) ∧
    ((∃ b ∈ l.filterMap RawBBox.fields?, b.x_min = r.x_min) ∧
     (∃ b ∈ l.filterMap RawBBox.fields?, b.y_min = r.y_min) ∧
     (∃ b ∈ l.filterMap RawBBox.fields?, b.x_max = r.x_max) ∧
     (∃ b ∈ l.filterMap RawBBox.fields?, b.y_max = r.y_max)) ∧
    merge_bounding_boxes l = merge_bounding_boxes l2 ∧
    (merge_bounding_boxes m = none ↔ m.filterMap RawBBox.fields? = []) ∧
    merge_bounding_boxes [c6_box1, c6_box2] =
      some { x_min := 1/10, y_min := 2/10, x_max := 5/10, y_max := 4/10 } := by
  obtain ⟨hne, hx, hy, hX, hY⟩ := merge_some_fields l r hr
  refine ⟨?_, ⟨?_, ?_, ?_, ?_⟩, merge_perm_eq l l2 hperm, merge_eq_none_iff m,
    merge_example_eval⟩
  · intro b hb
    exact ⟨hx ▸ pyMinQ_le _ _ (List.mem_map_of_mem BBox.x_min hb),
           hy ▸ pyMinQ_le _ _ (List.mem_map_of_mem BBox.y_min hb),
           hX ▸ le_pyMaxQ _ _ (List.mem_map_of_mem BBox.x_max hb),
           hY ▸ le_pyMaxQ _ _ (List.mem_map_of_mem BBox.y_max hb)⟩
  · obtain ⟨b, hb, he⟩ := List.mem_map.mp
      (pyMinQ_mem _ (by simpa using hne) :
        pyMinQ ((l.filterMap RawBBox.fields?).map BBox.x_min) ∈ _)
    exact ⟨b, hb, by rw [he, hx]⟩
  · obtain ⟨b, hb, he⟩ := List.mem_map.mp
      (pyMinQ_mem _ (by simpa using hne) :
        pyMinQ ((l.filterMap RawBBox.fields?).map BBox.y_min) ∈ _)
    exact ⟨b, hb, by rw [he, hy]⟩
  · obtain ⟨b, hb, he⟩ := List.mem_map.mp
      (pyMaxQ_mem _ (by simpa using hne) :
        pyMaxQ ((l.filterMap RawBBox.fields?).map BBox.x_max) ∈ _)
    exact ⟨b, hb, by rw [he, hX]⟩
  · obtain ⟨b, hb, he⟩ := List.mem_map.mp
      (pyMaxQ_mem _ (by simpa using hne) :
        pyMaxQ ((l.filterMap RawBBox.fields?).map BBox.y_max) ∈ _)
    exact ⟨b, hb, by rw [he, hY]⟩

/-- C6 witness: the theorem applied to the swapped example boxes and their
merged envelope. -/
theorem C6_merge_envelope_commutative_witness :
    ([c6_box1, c6_box2].Perm [c6_box2, c6_box1]) ∧
    merge_bounding_boxes [c6_box1, c6_box2] =
      some { x_min := 1/10, y_min := 2/10, x_max := 5/10, y_max := 4/10 } :=
  ⟨List.Perm.swap _ _ _,
    (C6_merge_envelope_commutative [c6_box1, c6_box2] [c6_box2, c6_box1] []
      { x_min := 1/10, y_min := 2/10, x_max := 5/10, y_max := 4/10 }
      (List.Perm.swap _ _ _) merge_example_eval).2.2.2.2⟩

/- ==================== C1 support lemmas ==================== -/

/-- The detector loop invariant: the counter is one ahead of the number of
emitted requirements, whose ids follow the `REQ-{i:03d}` scheme in order. -/
def detInv (st : DetectState) : Prop :=
  st.req_id_counter = st.requirements.length + 1 ∧
  st.requirements.map DetectedReq.id =
    (List.range st.requirements.length).map (fun i => "REQ-" ++ pad3 (i + 1))

theorem detInv_addDetected (st : DetectState) (h : detInv st)
    (a b c : String) (q : ℚ) : detInv (addDetected st a b c q) := by
  obtain ⟨h1, h2⟩ := h
  constructor
  · simp [addDetected, h1]
  · simp only [addDetected, List.map_append, List.length_append, List.map_cons,
      List.map_nil, List.length_cons, List.length_nil]
    rw [h2, h1]
    rw [show st.requirements.length + (0 + 1) = st.requirements.length + 1 by omega,
      List.range_succ, List.map_append]
    rfl

theorem detInv_processSentence (text : String) (st : DetectState)
    (h : detInv st) (s : String) : detInv (processSentence text st s) := by
  unfold processSentence
  dsimp only
  repeat' split
  all_goals first
    | exact h
    | exact detInv_addDetected _ h _ _ _ _

theorem detInv_foldl_sentences (text : String) (l : List String) :
    ∀ st : DetectState, detInv st → detInv (l.foldl (processSentence text) st) := by
  induction l with
  | nil => intro st h; exact h
  | cons s rest ih =>
    intro st h
    exact ih _ (detInv_processSentence text st h s)

theorem detInv_processLine (text : String) (st : DetectState)
    (h : detInv st) (line : String) : detInv (processLine text st line) := by
  unfold processLine
  dsimp only
  split
  · exact h
  · apply detInv_foldl_sentences
    repeat' split
    all_goals first
      | exact h
      | exact detInv_addDetected _ h _ _ _ _

theorem detInv_foldl_lines (text : String) (l : List String) :
    ∀ st : DetectState, detInv st → detInv (l.foldl (processLine text) st) := by
  induction l with
  | nil => intro st h; exact h
  | cons s rest ih =>
    intro st h
    exact ih _ (detInv_processLine text st h s)

/-- C1 (amended): within a single call of the Detector the ids are exactly
`REQ-001, REQ-002, …` in output order — unique and increasing within one
page's detection — but the counter is local to the call, so it restarts at 1
on every page rather than being global to the document. -/
theorem C1_ids_reset_per_call (text : String) :
    (detect_requirements text).map DetectedReq.id =
      (List.range (detect_requirements text).length).map
        (fun i => "REQ-" ++ pad3 (i + 1)) :=
  (detInv_foldl_lines text _
    { req_id_counter := 1, seen_texts := [], requirements := [] }
    ⟨rfl, rfl⟩).2

/-- C1 counterexample: two pages whose texts each trigger one detection both
receive the id `REQ-001` — the per-page outputs that
`parse_document_ai_response` concatenates repeat ids across pages, so the
document-wide ids are neither unique nor increasing. -/
theorem C1_counterexample :
    (detect_requirements "The system shall encrypt data at rest.").map
        DetectedReq.id = ["REQ-001"] ∧
    (detect_requirements "Users must be able to delete accounts.").map
        DetectedReq.id = ["REQ-001"] :=
  ⟨by decide, by decide⟩

/- ==================== C2/C5 support: builder-state invariants ============ -/

/-- Append-only growth of the builder state: nodes, edges and the three dedup
structures only ever gain entries. -/
def ExtendsB (st' st : BuildState) : Prop :=
  (∃ l, st'.nodes = st.nodes ++ l) ∧
  (∃ l, st'.edges = st.edges ++ l) ∧
  (∃ l, st'.seen_requirements = st.seen_requirements ++ l) ∧
  (∃ l, st'.seen_compliance = st.seen_compliance ++ l) ∧
  (∃ l, st'.seen_test_cases = st.seen_test_cases ++ l)

theorem extendsB_refl (st : BuildState) : ExtendsB st st :=
  ⟨⟨[], by simp⟩, ⟨[], by simp⟩, ⟨[], by simp⟩, ⟨[], by simp⟩, ⟨[], by simp⟩⟩

theorem extendsB_trans {st1 st2 st3 : BuildState}
    (h12 : ExtendsB st2 st1) (h23 : ExtendsB st3 st2) : ExtendsB st3 st1 := by
  obtain ⟨⟨a1, e1⟩, ⟨a2, e2⟩, ⟨a3, e3⟩, ⟨a4, e4⟩, ⟨a5, e5⟩⟩ := h12
  obtain ⟨⟨b1, f1⟩, ⟨b2, f2⟩, ⟨b3, f3⟩, ⟨b4, f4⟩, ⟨b5, f5⟩⟩ := h23
  exact ⟨⟨a1 ++ b1, by rw [f1, e1, List.append_assoc]⟩,
         ⟨a2 ++ b2, by rw [f2, e2, List.append_assoc]⟩,
         ⟨a3 ++ b3, by rw [f3, e3, List.append_assoc]⟩,
         ⟨a4 ++ b4, by rw [f4, e4, List.append_assoc]⟩,
         ⟨a5 ++ b5, by rw [f5, e5, List.append_assoc]⟩⟩

theorem addRequirement_extends (p : Nat) (st : BuildState) (r : ReqEntity) :
    ExtendsB (addRequirement p st r) st := by
  unfold addRequirement
  try dsimp only
  repeat' split
  all_goals first
    | exact extendsB_refl st
    | exact ⟨⟨_, rfl⟩, ⟨[], by simp⟩, ⟨_, rfl⟩, ⟨[], by simp⟩, ⟨[], by simp⟩⟩

theorem addCompliance2a_extends (p : Nat) (st : BuildState) (c : CompEntity) :
    ExtendsB (addCompliance2a p st c) st := by
  unfold addCompliance2a
  dsimp only
  repeat' split
  all_goals first
    | exact extendsB_refl st
    | exact ⟨⟨_, rfl⟩, ⟨[], by simp⟩, ⟨[], by simp⟩, ⟨_, rfl⟩, ⟨[], by simp⟩⟩

theorem addCompliance2b_extends (p : Nat) (st : BuildState) (rel : RelIn) :
    ExtendsB (addCompliance2b p st rel) st := by
  unfold addCompliance2b
  dsimp only
  repeat' split
  all_goals first
    | exact extendsB_refl st
    | exact ⟨⟨_, rfl⟩, ⟨[], by simp⟩, ⟨[], by simp⟩, ⟨_, rfl⟩, ⟨[], by simp⟩⟩

theorem addEdgeFromRel_extends (p : Nat) (st : BuildState) (rel : RelIn) :
    ExtendsB (addEdgeFromRel p st rel) st := by
  unfold addEdgeFromRel
  dsimp only
  repeat' split
  all_goals first
    | exact extendsB_refl st
    | exact ⟨⟨[], by simp⟩, ⟨_, rfl⟩, ⟨[], by simp⟩, ⟨[], by simp⟩, ⟨[], by simp⟩⟩

theorem addTestCase_extends (st : BuildState) (tc : TestCaseIn) :
    ExtendsB (addTestCase st tc) st := by
  unfold addTestCase
  dsimp only
  split
  · split
    · exact ⟨⟨_, rfl⟩, ⟨[], by simp⟩, ⟨[], by simp⟩, ⟨[], by simp⟩, ⟨_, rfl⟩⟩
    · split
      · exact ⟨⟨_, rfl⟩, ⟨_, rfl⟩, ⟨[], by simp⟩, ⟨[], by simp⟩, ⟨_, rfl⟩⟩
      · exact ⟨⟨_, rfl⟩, ⟨[], by simp⟩, ⟨[], by simp⟩, ⟨[], by simp⟩, ⟨_, rfl⟩⟩
  · exact extendsB_refl st

theorem foldl_extends {α : Type} (f : BuildState → α → BuildState)
    (hf : ∀ st x, ExtendsB (f st x) st) (l : List α) :
    ∀ st, ExtendsB (l.foldl f st) st := by
  induction l with
  | nil => intro st; exact extendsB_refl st
  | cons x rest ih =>
    intro st
    exact extendsB_trans (hf st x) (ih (f st x))

theorem processChunk_extends (st : BuildState) (c : ChunkIn) :
    ExtendsB (processChunk st c) st := by
  unfold processChunk
  exact extendsB_trans
    (extendsB_trans
      (extendsB_trans
        (foldl_extends _ (addRequirement_extends c.page_number)
          c.detected_requirements st)
        (foldl_extends _ (addCompliance2a_extends c.page_number)
          c.detected_compliance _))
      (foldl_extends _ (addCompliance2b_extends c.page_number) c.relationships _))
    (foldl_extends _ (addEdgeFromRel_extends c.page_number) c.relationships _)

/-- The correspondence between the dedup structures, the node list and the
test-generation edges that the builder maintains. -/
def StInv (st : BuildState) : Prop :=
  (∀ i ∈ st.seen_requirements, ∃ n ∈ st.nodes, n.id = i ∧ n.type = "REQUIREMENT") ∧
  (∀ i ∈ st.seen_test_cases,
      ∃ n ∈ st.nodes, n.id = i ∧ n.type = "TEST_CASE" ∧ n.confidence = 9/10) ∧
  (∀ p ∈ st.seen_compliance,
      ∃ n ∈ st.nodes, n.id = p.2 ∧ n.type = "COMPLIANCE_STANDARD") ∧
  (∀ e ∈ st.edges, e.source = "test_generation" →
      e.relation = "VERIFIED_BY" ∧ e.confidence = 9/10 ∧
      e.from_ ∈ st.seen_test_cases ∧ e.to_ ∈ st.seen_requirements)

theorem nodesEx_mono {nodes dn : List GraphNode} {P : GraphNode → Prop}
    (h : ∃ n ∈ nodes, P n) : ∃ n ∈ nodes ++ dn, P n := by
  obtain ⟨n, hn, hp⟩ := h
  exact ⟨n, List.mem_append_left _ hn, hp⟩

theorem stInv_addRequirement (p : Nat) (st : BuildState) (r : ReqEntity)
    (h : StInv st) : StInv (addRequirement p st r) := by
  obtain ⟨h1, h2, h3, h4⟩ := h
  unfold addRequirement
  split
  · exact ⟨h1, h2, h3, h4⟩
  · split
    · refine ⟨?_, ?_, ?_, ?_⟩
      · intro i hi
        rcases List.mem_append.mp hi with hl | hr
        · exact nodesEx_mono (h1 i hl)
        · have hir := List.mem_singleton.mp hr
          subst hir
          exact ⟨_, List.mem_append_right _ (List.mem_singleton_self _), rfl, rfl⟩
      · intro i hi
        exact nodesEx_mono (h2 i hi)
      · intro q hq
        exact nodesEx_mono (h3 q hq)
      · intro e he hsrc
        obtain ⟨ha, hb, hc, hd⟩ := h4 e he hsrc
        exact ⟨ha, hb, hc, List.mem_append_left _ hd⟩
    · exact ⟨h1, h2, h3, h4⟩

theorem stInv_addCompliance2a (p : Nat) (st : BuildState) (c : CompEntity)
    (h : StInv st) : StInv (addCompliance2a p st c) := by
  obtain ⟨h1, h2, h3, h4⟩ := h
  unfold addCompliance2a
  dsimp only
  split
  · refine ⟨?_, ?_, ?_, ?_⟩
    · intro i hi
      exact nodesEx_mono (h1 i hi)
    · intro i hi
      exact nodesEx_mono (h2 i hi)
    · intro q hq
      rcases List.mem_append.mp hq with hl | hr
      · exact nodesEx_mono (h3 q hl)
      · have hqr := List.mem_singleton.mp hr
        subst hqr
        exact ⟨_, List.mem_append_right _ (List.mem_singleton_self _), rfl, rfl⟩
    · exact h4
  · exact ⟨h1, h2, h3, h4⟩

theorem stInv_addCompliance2b (p : Nat) (st : BuildState) (rel : RelIn)
    (h : StInv st) : StInv (addCompliance2b p st rel) := by
  obtain ⟨h1, h2, h3, h4⟩ := h
  unfold addCompliance2b
  dsimp only
  split
  · exact ⟨h1, h2, h3, h4⟩
  · split
    · split
      · refine ⟨?_, ?_, ?_, ?_⟩
        · intro i hi
          exact nodesEx_mono (h1 i hi)
        · intro i hi
          exact nodesEx_mono (h2 i hi)
        · intro q hq
          rcases List.mem_append.mp hq with hl | hr
          · exact nodesEx_mono (h3 q hl)
          · have hqr := List.mem_singleton.mp hr
            subst hqr
            exact ⟨_, List.mem_append_right _ (List.mem_singleton_self _), rfl, rfl⟩
        · exact h4
      · exact ⟨h1, h2, h3, h4⟩
    · exact ⟨h1, h2, h3, h4⟩

theorem stInv_addEdgeFromRel (p : Nat) (st : BuildState) (rel : RelIn)
    (h : StInv st) : StInv (addEdgeFromRel p st rel) := by
  obtain ⟨h1, h2, h3, h4⟩ := h
  unfold addEdgeFromRel
  dsimp only
  split
  · refine ⟨h1, h2, h3, ?_⟩
    intro e he hsrc
    rcases List.mem_append.mp he with hl | hr
    · exact h4 e hl hsrc
    · have her := List.mem_singleton.mp hr
      subst her
      simp at hsrc
  · exact ⟨h1, h2, h3, h4⟩

theorem stInv_addTestCase (st : BuildState) (tc : TestCaseIn)
    (h : StInv st) : StInv (addTestCase st tc) := by
  obtain ⟨h1, h2, h3, h4⟩ := h
  unfold addTestCase
  dsimp only
  split
  · split
    · refine ⟨?_, ?_, ?_, ?_⟩
      · intro i hi
        exact nodesEx_mono (h1 i hi)
      · intro i hi
        rcases List.mem_append.mp hi with hl | hr
        · exact nodesEx_mono (h2 i hl)
        · have hir := List.mem_singleton.mp hr
          subst hir
          exact ⟨_, List.mem_append_right _ (List.mem_singleton_self _), rfl, rfl, rfl⟩
      · intro q hq
        exact nodesEx_mono (h3 q hq)
      · intro e he hsrc
        obtain ⟨ha, hb, hc, hd⟩ := h4 e he hsrc
        exact ⟨ha, hb, List.mem_append_left _ hc, hd⟩
    · rename_i hd
      split
      · rename_i hguard
        refine ⟨?_, ?_, ?_, ?_⟩
        · intro i hi
          exact nodesEx_mono (h1 i hi)
        · intro i hi
          rcases List.mem_append.mp hi with hl | hr
          · exact nodesEx_mono (h2 i hl)
          · have hir := List.mem_singleton.mp hr
            subst hir
            exact ⟨_, List.mem_append_right _ (List.mem_singleton_self _), rfl, rfl, rfl⟩
        · intro q hq
          exact nodesEx_mono (h3 q hq)
        · intro e he hsrc
          rcases List.mem_append.mp he with hl | hr
          · obtain ⟨ha, hb, hc, hdd⟩ := h4 e hl hsrc
            exact ⟨ha, hb, List.mem_append_left _ hc, hdd⟩
          · have her := List.mem_singleton.mp hr
            subst her
            refine ⟨rfl, rfl, List.mem_append_right _ (List.mem_singleton_self _), ?_⟩
            have := (Bool.and_eq_true _ _).mp hguard
            have hmem : st.seen_requirements.contains _ = true := this.2
            simpa using hmem
      · refine ⟨?_, ?_, ?_, ?_⟩
        · intro i hi
          exact nodesEx_mono (h1 i hi)
        · intro i hi
          rcases List.mem_append.mp hi with hl | hr
          · exact nodesEx_mono (h2 i hl)
          · have hir := List.mem_singleton.mp hr
            subst hir
            exact ⟨_, List.mem_append_right _ (List.mem_singleton_self _), rfl, rfl, rfl⟩
        · intro q hq
          exact nodesEx_mono (h3 q hq)
        · intro e he hsrc
          obtain ⟨ha, hb, hc, hdd⟩ := h4 e he hsrc
          exact ⟨ha, hb, List.mem_append_left _ hc, hdd⟩
  · exact ⟨h1, h2, h3, h4⟩

theorem stInv_foldl {α : Type} (f : BuildState → α → BuildState)
    (hf : ∀ st x, StInv st → StInv (f st x)) (l : List α) :
    ∀ st, StInv st → StInv (l.foldl f st) := by
  induction l with
  | nil => intro st h; exact h
  | cons x rest ih =>
    intro st h
    exact ih _ (hf st x h)

theorem stInv_processChunk (st : BuildState) (c : ChunkIn) (h : StInv st) :
    StInv (processChunk st c) := by
  unfold processChunk
  exact stInv_foldl _ (stInv_addEdgeFromRel c.page_number) c.relationships _
    (stInv_foldl _ (stInv_addCompliance2b c.page_number) c.relationships _
      (stInv_foldl _ (stInv_addCompliance2a c.page_number) c.detected_compliance _
        (stInv_foldl _ (stInv_addRequirement c.page_number)
          c.detected_requirements st h)))

theorem seen_req_mono {st' st : BuildState} (h : ExtendsB st' st) {i : String}
    (hi : i ∈ st.seen_requirements) : i ∈ st'.seen_requirements := by
  obtain ⟨_, _, ⟨l, hl⟩, _, _⟩ := h
  rw [hl]
  exact List.mem_append_left _ hi

theorem seen_tc_mono {st' st : BuildState} (h : ExtendsB st' st) {i : String}
    (hi : i ∈ st.seen_test_cases) : i ∈ st'.seen_test_cases := by
  obtain ⟨_, _, _, _, ⟨l, hl⟩⟩ := h
  rw [hl]
  exact List.mem_append_left _ hi

theorem mem_seen_addRequirement_self (p : Nat) (st : BuildState) (r : ReqEntity)
    (s : String) (hid : r.id = some s) (hs : s ≠ "") :
    s ∈ (addRequirement p st r).seen_requirements := by
  unfold addRequirement
  rw [hid]
  dsimp only
  split
  · exact List.mem_append_right _ (List.mem_singleton_self _)
  · rename_i hcond
    have hb : (s != "") = true := by simpa using hs
    by_contra hmem
    exact hcond (by simp [hb, hmem])

theorem mem_seen_foldReq (p : Nat) (reqs : List ReqEntity) :
    ∀ st : BuildState, ∀ r ∈ reqs, ∀ s, r.id = some s → s ≠ "" →
      s ∈ (reqs.foldl (addRequirement p) st).seen_requirements := by
  induction reqs with
  | nil => intro st r hr; simp at hr
  | cons a rest ih =>
    intro st r hr s hid hs
    rcases List.mem_cons.mp hr with h | h
    · have hid2 : a.id = some s := by rw [← h]; exact hid
      exact seen_req_mono
        (foldl_extends _ (addRequirement_extends p) rest (addRequirement p st a))
        (mem_seen_addRequirement_self p st a s hid2 hs)
    · exact ih _ r h s hid hs

theorem mem_seen_processChunk (st : BuildState) (c : ChunkIn) (r : ReqEntity)
    (hr : r ∈ c.detected_requirements) (s : String) (hid : r.id = some s)
    (hs : s ≠ "") : s ∈ (processChunk st c).seen_requirements := by
  unfold processChunk
  exact seen_req_mono
    (extendsB_trans
      (extendsB_trans
        (foldl_extends _ (addCompliance2a_extends c.page_number)
          c.detected_compliance _)
        (foldl_extends _ (addCompliance2b_extends c.page_number) c.relationships _))
      (foldl_extends _ (addEdgeFromRel_extends c.page_number) c.relationships _))
    (mem_seen_foldReq c.page_number c.detected_requirements st r hr s hid hs)

theorem mem_seen_buildFold (chunks : List ChunkIn) :
    ∀ st : BuildState, ∀ c ∈ chunks, ∀ r ∈ c.detected_requirements, ∀ s,
      r.id = some s → s ≠ "" →
      s ∈ (chunks.foldl processChunk st).seen_requirements := by
  induction chunks with
  | nil => intro st c hc; simp at hc
  | cons a rest ih =>
    intro st c hc r hr s hid hs
    rcases List.mem_cons.mp hc with h | h
    · have hr2 : r ∈ a.detected_requirements := by rw [← h]; exact hr
      exact seen_req_mono (foldl_extends _ processChunk_extends rest (processChunk st a))
        (mem_seen_processChunk st a r hr2 s hid hs)
    · exact ih _ c h r hr s hid hs

theorem mem_seen_addTestCase_self (st : BuildState) (tc : TestCaseIn)
    (s : String) (hid : tc.id = some s) :
    s ∈ (addTestCase st tc).seen_test_cases := by
  unfold addTestCase
  rw [hid]
  dsimp only
  split
  · split
    · exact List.mem_append_right _ (List.mem_singleton_self _)
    · split
      · exact List.mem_append_right _ (List.mem_singleton_self _)
      · exact List.mem_append_right _ (List.mem_singleton_self _)
  · rename_i hcond
    by_contra hmem
    exact hcond (by simp [hmem])

theorem mem_seen_foldTestCases (tcs : List TestCaseIn) :
    ∀ st : BuildState, ∀ tc ∈ tcs, ∀ s, tc.id = some s →
      s ∈ (tcs.foldl addTestCase st).seen_test_cases := by
  induction tcs with
  | nil => intro st tc htc; simp at htc
  | cons a rest ih =>
    intro st tc htc s hid
    rcases List.mem_cons.mp htc with h | h
    · have hid2 : a.id = some s := by rw [← h]; exact hid
      exact seen_tc_mono (foldl_extends _ addTestCase_extends rest (addTestCase st a))
        (mem_seen_addTestCase_self st a s hid2)
    · exact ih _ tc h s hid

/-- The initial builder state (`nodes = []`, `edges = []` and the three empty
dedup structures). -/
def emptyBuildState : BuildState :=
  { nodes := [], edges := [], seen_requirements := []
    seen_compliance := [], seen_test_cases := [] }

/-- A chunk detecting the single requirement `REQ-001` (no compliance, no
relationships). -/
def c5_chunk : ChunkIn :=
  { page_number := 1, chunk_id := "chunk_001"
    detected_requirements :=
      [{ id := some "REQ-001", text := "The system shall encrypt data.",
         confidence := 85/100 }]
    detected_compliance := [], relationships := [] }

/-- A test-case draft whose declared source requirement `REQ-404` does not
exist in the graph. -/
def c5_orphan_draft : TestCaseIn :=
  { id := some "TC-9", title := "Orphan test", description := "d"
    category := "Security Tests", priority := "High"
    derived_from := some "REQ-404" }

/-- C5 counterexample: a draft whose declared requirement id is absent is
not skipped — it still becomes a TEST_CASE node (`TC-9` below); only its
`VERIFIED_BY` edge is omitted (the edge list stays empty). -/
theorem C5_counterexample :
    ((build_knowledge_graph_from_rag [c5_chunk] (some [c5_orphan_draft])).nodes.filter
        fun n => n.type = "TEST_CASE").map GraphNode.id = ["TC-9"] ∧
    (build_knowledge_graph_from_rag [c5_chunk] (some [c5_orphan_draft])).edges = [] :=
  ⟨by decide, by decide⟩

/-- C5 (amended): every supplied test-case draft with an explicit id becomes
a TEST_CASE node with confidence fixed at 0.9 (regardless of whether its
declared requirement exists); the `VERIFIED_BY` edge is emitted only when the
declared source requirement id is already a requirement of the graph, so
every test-generation edge has confidence 0.9 and both endpoints existing —
no dangling edge is ever produced. -/
theorem C5_test_case_nodes_and_edges (chunks : List ChunkIn)
    (tcs : List TestCaseIn) (hne : chunks ≠ []) :
    (∀ tc ∈ tcs, ∀ s, tc.id = some s →
        ∃ n ∈ (build_knowledge_graph_from_rag chunks (some tcs)).nodes,
          n.id = s ∧ n.type = "TEST_CASE" ∧ n.confidence = 9/10) ∧
    (∀ e ∈ (build_knowledge_graph_from_rag chunks (some tcs)).edges,
        e.source = "test_generation" →
          e.relation = "VERIFIED_BY" ∧ e.confidence = 9/10 ∧
          (∃ n ∈ (build_knowledge_graph_from_rag chunks (some tcs)).nodes,
            n.id = e.from_ ∧ n.type = "TEST_CASE") ∧
          (∃ n ∈ (build_knowledge_graph_from_rag chunks (some tcs)).nodes,
            n.id = e.to_ ∧ n.type = "REQUIREMENT")) := by
  have hcond : ¬(chunks.isEmpty = true) := fun h => hne (List.isEmpty_iff.mp h)
  have hbase : StInv emptyBuildState := by
    refine ⟨?_, ?_, ?_, ?_⟩ <;> intro x hx <;> simp [emptyBuildState] at hx
  have hinv : StInv (tcs.foldl addTestCase
      (chunks.foldl processChunk emptyBuildState)) :=
    stInv_foldl _ stInv_addTestCase tcs _
      (stInv_foldl _ (fun st c h => stInv_processChunk st c h) chunks _ hbase)
  unfold build_knowledge_graph_from_rag
  rw [if_neg hcond]
  dsimp only
  constructor
  · intro tc htc s hid
    have hmem := mem_seen_foldTestCases tcs (chunks.foldl processChunk emptyBuildState) tc htc s hid
    exact hinv.2.1 s hmem
  · intro e he hsrc
    obtain ⟨ha, hb, hc, hd⟩ := hinv.2.2.2 e he hsrc
    obtain ⟨n1, hn1, hn1id, hn1t, _⟩ := hinv.2.1 _ hc
    obtain ⟨n2, hn2, hn2id, hn2t⟩ := hinv.1 _ hd
    exact ⟨ha, hb, ⟨n1, hn1, hn1id, hn1t⟩, ⟨n2, hn2, hn2id, hn2t⟩⟩

/-- C5 witness: the amended theorem applied to the orphan-draft input. -/
theorem C5_test_case_nodes_and_edges_witness :
    ([c5_chunk] ≠ ([] : List ChunkIn)) ∧
    ((∀ tc ∈ [c5_orphan_draft], ∀ s, tc.id = some s →
        ∃ n ∈ (build_knowledge_graph_from_rag [c5_chunk]
            (some [c5_orphan_draft])).nodes,
          n.id = s ∧ n.type = "TEST_CASE" ∧ n.confidence = 9/10) ∧
     (∀ e ∈ (build_knowledge_graph_from_rag [c5_chunk]
          (some [c5_orphan_draft])).edges,
        e.source = "test_generation" →
          e.relation = "VERIFIED_BY" ∧ e.confidence = 9/10 ∧
          (∃ n ∈ (build_knowledge_graph_from_rag [c5_chunk]
              (some [c5_orphan_draft])).nodes,
            n.id = e.from_ ∧ n.type = "TEST_CASE") ∧
          (∃ n ∈ (build_knowledge_graph_from_rag [c5_chunk]
              (some [c5_orphan_draft])).nodes,
            n.id = e.to_ ∧ n.type = "REQUIREMENT"))) :=
  ⟨by decide,
   C5_test_case_nodes_and_edges [c5_chunk] [c5_orphan_draft] (by decide)⟩

/- ==================== C2 support lemmas ==================== -/

theorem lookup_append_of_some {k v : String} {l l' : List (String × String)}
    (h : l.lookup k = some v) : (l ++ l').lookup k = some v := by
  induction l with
  | nil => simp [List.lookup] at h
  | cons p rest ih =>
    rcases p with ⟨a, b⟩
    simp only [List.lookup, List.cons_append] at h ⊢
    rcases hk : (k == a) with _ | _
    · rw [hk] at h
      exact ih h
    · rw [hk] at h
      exact h

theorem lookup_isSome_append {k : String} {l l' : List (String × String)}
    (h : (l.lookup k).isSome = true) : ((l ++ l').lookup k).isSome = true := by
  rcases ho : l.lookup k with _ | v
  · rw [ho] at h; simp at h
  · rw [lookup_append_of_some ho]; rfl

theorem lookup_append_self {k v : String} (l : List (String × String)) :
    ((l ++ [(k, v)]).lookup k).isSome = true := by
  induction l with
  | nil => simp [List.lookup]
  | cons p rest ih =>
    rcases p with ⟨a, b⟩
    simp only [List.cons_append, List.lookup]
    rcases hk : (k == a) with _ | _
    · exact ih
    · rfl

theorem seen_comp_lookup_mono {st' st : BuildState} (hext : ExtendsB st' st)
    {k : String} (h : (st.seen_compliance.lookup k).isSome = true) :
    (st'.seen_compliance.lookup k).isSome = true := by
  obtain ⟨_, _, _, ⟨l, hl⟩, _⟩ := hext
  rw [hl]
  exact lookup_isSome_append h

theorem lookup_after_2b (p : Nat) (st : BuildState) (rel : RelIn) (t : String)
    (ht : rel.target_id = some t)
    (hcls : rel.target_class = "COMPLIANCE_STANDARD") (htn : t ≠ "") :
    (((addCompliance2b p st rel).seen_compliance.lookup
        (normalize_compliance_id t)).isSome) = true := by
  unfold addCompliance2b
  rw [ht]
  dsimp only
  rw [if_pos (by simp [hcls, htn])]
  split
  · rename_i hnone
    exact lookup_append_self st.seen_compliance
  · rename_i hnone
    simp only [Bool.not_eq_true, Option.isNone_eq_false_iff] at hnone
    exact hnone

theorem lookup_after_2b_fold (p : Nat) (rels : List RelIn) :
    ∀ st : BuildState, ∀ rel ∈ rels, ∀ t, rel.target_id = some t →
      rel.target_class = "COMPLIANCE_STANDARD" → t ≠ "" →
      (((rels.foldl (addCompliance2b p) st).seen_compliance.lookup
          (normalize_compliance_id t)).isSome) = true := by
  induction rels with
  | nil => intro st rel hr; simp at hr
  | cons a rest ih =>
    intro st rel hr t ht hcls htn
    rcases List.mem_cons.mp hr with h | h
    · have ht2 : a.target_id = some t := by rw [← h]; exact ht
      have hcls2 : a.target_class = "COMPLIANCE_STANDARD" := by rw [← h]; exact hcls
      exact seen_comp_lookup_mono
        (foldl_extends _ (addCompliance2b_extends p) rest (addCompliance2b p st a))
        (lookup_after_2b p st a t ht2 hcls2 htn)
    · exact ih _ rel h t ht hcls htn

/-- Values stored in `seen_compliance` are ids of existing
COMPLIANCE_STANDARD nodes (the third conjunct of `StInv`). -/
def CompValsInv (st : BuildState) : Prop :=
  ∀ q ∈ st.seen_compliance, ∃ n ∈ st.nodes, n.id = q.2

/-- The chunk-relationship edge property, relative to an abstract predicate
`P` on source ids: every edge is either a test-generation edge or points at
an existing node and carries a truthy source id satisfying `P`. -/
def EInvP (P : String → Prop) (st : BuildState) : Prop :=
  ∀ e ∈ st.edges, e.source = "test_generation" ∨
    ((∃ n ∈ st.nodes, n.id = e.to_) ∧ ∃ s, P s ∧ s ≠ "" ∧ e.from_ = s)

theorem eInvP_extends {P : String → Prop} {st' st : BuildState}
    (hext : ExtendsB st' st) (hsame : st'.edges = st.edges)
    (h : EInvP P st) : EInvP P st' := by
  intro e he
  rw [hsame] at he
  rcases h e he with hl | ⟨⟨n, hn, hni⟩, s, hs⟩
  · exact Or.inl hl
  · obtain ⟨⟨l, hl2⟩, _, _, _, _⟩ := hext
    exact Or.inr ⟨⟨n, by rw [hl2]; exact List.mem_append_left _ hn, hni⟩, s, hs⟩

theorem pyTruthy_some {o : Option String} (h : pyTruthy o = true) :
    ∃ s, o = some s ∧ s ≠ "" := by
  cases o with
  | none => simp [pyTruthy] at h
  | some s => exact ⟨s, rfl, by simpa [pyTruthy] using h⟩

theorem mem_of_lookup_eq_some {l : List (String × String)} {k v : String}
    (h : l.lookup k = some v) : (k, v) ∈ l := by
  induction l with
  | nil => simp [List.lookup] at h
  | cons p rest ih =>
    rcases p with ⟨a, b⟩
    simp only [List.lookup] at h
    rcases hk : (k == a) with _ | _
    · rw [hk] at h
      exact List.mem_cons_of_mem _ (ih h)
    · rw [hk] at h
      have hka : k = a := beq_iff_eq.mp hk
      have hvb : b = v := Option.some.inj h
      rw [hka, hvb]
      exact List.mem_cons_self _ _

theorem addRequirement_edges_eq (p : Nat) (st : BuildState) (r : ReqEntity) :
    (addRequirement p st r).edges = st.edges := by
  unfold addRequirement
  repeat' split
  all_goals rfl

theorem addCompliance2a_edges_eq (p : Nat) (st : BuildState) (c : CompEntity) :
    (addCompliance2a p st c).edges = st.edges := by
  unfold addCompliance2a
  dsimp only
  repeat' split
  all_goals rfl

theorem addCompliance2b_edges_eq (p : Nat) (st : BuildState) (rel : RelIn) :
    (addCompliance2b p st rel).edges = st.edges := by
  unfold addCompliance2b
  dsimp only
  repeat' split
  all_goals rfl

theorem addEdgeFromRel_nodes_eq (p : Nat) (st : BuildState) (rel : RelIn) :
    (addEdgeFromRel p st rel).nodes = st.nodes := by
  unfold addEdgeFromRel
  dsimp only
  repeat' split
  all_goals rfl

theorem addEdgeFromRel_seenComp_eq (p : Nat) (st : BuildState) (rel : RelIn) :
    (addEdgeFromRel p st rel).seen_compliance = st.seen_compliance := by
  unfold addEdgeFromRel
  dsimp only
  repeat' split
  all_goals rfl

theorem foldl_edges_eq {α : Type} (f : BuildState → α → BuildState)
    (hf : ∀ st x, (f st x).edges = st.edges) (l : List α) :
    ∀ st, (l.foldl f st).edges = st.edges := by
  induction l with
  | nil => intro st; rfl
  | cons x rest ih =>
    intro st
    rw [List.foldl_cons, ih (f st x), hf st x]

theorem eInvP_addEdgeFromRel (P : String → Prop) (p : Nat) (st : BuildState)
    (rel : RelIn)
    (hH : ∀ s t, rel.source_id = some s → rel.target_id = some t → s ≠ "" → t ≠ "" →
        rel.target_class = "COMPLIANCE_STANDARD" ∧ P s)
    (hlook : ∀ t, rel.target_id = some t →
        rel.target_class = "COMPLIANCE_STANDARD" → t ≠ "" →
        ((st.seen_compliance.lookup (normalize_compliance_id t)).isSome) = true)
    (hcomp : CompValsInv st)
    (h : EInvP P st) : EInvP P (addEdgeFromRel p st rel) := by
  unfold addEdgeFromRel
  dsimp only
  split
  · rename_i hcond
    intro e he
    rcases List.mem_append.mp he with hl | hr
    · exact h e hl
    · have he2 := List.mem_singleton.mp hr
      subst he2
      right
      have hand := (Bool.and_eq_true _ _).mp hcond
      obtain ⟨s, hso, hsn⟩ := pyTruthy_some hand.1
      obtain ⟨t, hto, htn⟩ := pyTruthy_some hand.2
      obtain ⟨hcls, hP⟩ := hH s t hso hto hsn htn
      constructor
      · have hsome := hlook t hto hcls htn
        rcases ho : st.seen_compliance.lookup (normalize_compliance_id t) with _ | v
        · rw [ho] at hsome
          simp at hsome
        · obtain ⟨n, hn, hni⟩ := hcomp _ (mem_of_lookup_eq_some ho)
          refine ⟨n, hn, ?_⟩
          rw [hni]
          simp only [hto, Option.getD_some, if_pos hcls, ho, Option.getD_some]
      · exact ⟨s, hP, hsn, by simp [hso]⟩
  · intro e he
    exact h e he

theorem eInvP_edgeFold (P : String → Prop) (p : Nat) (rels : List RelIn) :
    ∀ st : BuildState,
    (∀ rel ∈ rels, ∀ s t, rel.source_id = some s → rel.target_id = some t →
        s ≠ "" → t ≠ "" → rel.target_class = "COMPLIANCE_STANDARD" ∧ P s) →
    (∀ rel ∈ rels, ∀ t, rel.target_id = some t →
        rel.target_class = "COMPLIANCE_STANDARD" → t ≠ "" →
        ((st.seen_compliance.lookup (normalize_compliance_id t)).isSome) = true) →
    CompValsInv st → EInvP P st →
    EInvP P (rels.foldl (addEdgeFromRel p) st) := by
  induction rels with
  | nil => intro st _ _ _ h; exact h
  | cons a rest ih =>
    intro st hH hlook hcomp h
    rw [List.foldl_cons]
    apply ih
    · intro rel hr
      exact hH rel (List.mem_cons_of_mem _ hr)
    · intro rel hr t ht hcls htn
      rw [addEdgeFromRel_seenComp_eq]
      exact hlook rel (List.mem_cons_of_mem _ hr) t ht hcls htn
    · intro q hq
      rw [addEdgeFromRel_seenComp_eq] at hq
      rw [addEdgeFromRel_nodes_eq]
      exact hcomp q hq
    · exact eInvP_addEdgeFromRel P p st a
        (fun s t hso hto hsn htn => hH a (List.mem_cons_self _ _) s t hso hto hsn htn)
        (fun t hto hcls htn => hlook a (List.mem_cons_self _ _) t hto hcls htn)
        hcomp h

theorem eInvP_addTestCase (P : String → Prop) (st : BuildState) (tc : TestCaseIn)
    (h : EInvP P st) : EInvP P (addTestCase st tc) := by
  unfold addTestCase
  dsimp only
  split
  · split
    · exact eInvP_extends
        ⟨⟨_, rfl⟩, ⟨[], by simp⟩, ⟨[], by simp⟩, ⟨[], by simp⟩, ⟨_, rfl⟩⟩ rfl h
    · split
      · intro e he
        rcases List.mem_append.mp he with hl | hr
        · rcases h e hl with hL | ⟨⟨n, hn, hni⟩, hs⟩
          · exact Or.inl hL
          · exact Or.inr ⟨⟨n, List.mem_append_left _ hn, hni⟩, hs⟩
        · have he2 := List.mem_singleton.mp hr
          subst he2
          exact Or.inl rfl
      · exact eInvP_extends
          ⟨⟨_, rfl⟩, ⟨[], by simp⟩, ⟨[], by simp⟩, ⟨[], by simp⟩, ⟨_, rfl⟩⟩ rfl h
  · exact h

theorem eInvP_processChunk (P : String → Prop) (st : BuildState) (c : ChunkIn)
    (hSt : StInv st)
    (hH : ∀ rel ∈ c.relationships, ∀ s t, rel.source_id = some s →
        rel.target_id = some t → s ≠ "" → t ≠ "" →
        rel.target_class = "COMPLIANCE_STANDARD" ∧ P s)
    (h : EInvP P st) : EInvP P (processChunk st c) := by
  unfold processChunk
  apply eInvP_edgeFold
  · exact hH
  · intro rel hr t ht hcls htn
    exact lookup_after_2b_fold c.page_number c.relationships _ rel hr t ht hcls htn
  · intro q hq
    obtain ⟨n, hn, hni, _⟩ :=
      (stInv_foldl _ (stInv_addCompliance2b c.page_number) c.relationships _
        (stInv_foldl _ (stInv_addCompliance2a c.page_number) c.detected_compliance _
          (stInv_foldl _ (stInv_addRequirement c.page_number)
            c.detected_requirements st hSt))).2.2.1 q hq
    exact ⟨n, hn, hni⟩
  · refine eInvP_extends (foldl_extends _ (addCompliance2b_extends c.page_number)
        c.relationships _) (foldl_edges_eq _ (addCompliance2b_edges_eq c.page_number) _ _) ?_
    refine eInvP_extends (foldl_extends _ (addCompliance2a_extends c.page_number)
        c.detected_compliance _) (foldl_edges_eq _ (addCompliance2a_edges_eq c.page_number) _ _) ?_
    exact eInvP_extends (foldl_extends _ (addRequirement_extends c.page_number)
        c.detected_requirements _) (foldl_edges_eq _ (addRequirement_edges_eq c.page_number) _ _) h

theorem eInvP_chunkFold (P : String → Prop) (chunks : List ChunkIn) :
    ∀ st : BuildState, StInv st → EInvP P st →
    (∀ c ∈ chunks, ∀ rel ∈ c.relationships, ∀ s t, rel.source_id = some s →
        rel.target_id = some t → s ≠ "" → t ≠ "" →
        rel.target_class = "COMPLIANCE_STANDARD" ∧ P s) →
    EInvP P (chunks.foldl processChunk st) := by
  induction chunks with
  | nil => intro st _ h _; exact h
  | cons a rest ih =>
    intro st hSt h hH
    rw [List.foldl_cons]
    exact ih _ (stInv_processChunk st a hSt)
      (eInvP_processChunk P st a hSt (hH a (List.mem_cons_self _ _)) h)
      (fun c hc => hH c (List.mem_cons_of_mem _ hc))

theorem eInvP_tcFold (P : String → Prop) (tcs : List TestCaseIn) :
    ∀ st : BuildState, EInvP P st → EInvP P (tcs.foldl addTestCase st) := by
  induction tcs with
  | nil => intro st h; exact h
  | cons a rest ih =>
    intro st h
    exact ih _ (eInvP_addTestCase P st a h)

/-- A chunk whose relationship source `REQ-001` is never detected as a
requirement: the builder copies it into an edge unchecked. -/
def c2_bad_chunk : ChunkIn :=
  { page_number := 1, chunk_id := "c1", detected_requirements := []
    detected_compliance := [], relationships := [relToCompliance "GDPR"] }

/-- C2 counterexample: on the chunk above, the built graph has the single
node `COMP_001` but its single edge's `from` id is the nonexistent
`REQ-001` — an edge endpoint that references no node. -/
theorem C2_counterexample :
    (build_knowledge_graph_from_rag [c2_bad_chunk] none).edges.map
        GraphEdge.from_ = ["REQ-001"] ∧
    (build_knowledge_graph_from_rag [c2_bad_chunk] none).nodes.map
        GraphNode.id = ["COMP_001"] ∧
    ¬ (∀ e ∈ (build_knowledge_graph_from_rag [c2_bad_chunk] none).edges,
        ∃ n ∈ (build_knowledge_graph_from_rag [c2_bad_chunk] none).nodes,
          n.id = e.from_) :=
  ⟨by decide, by decide, by decide⟩

/-- C2 (amended): edge endpoints are checked against the node list only
partially — the `to` endpoint of a COMPLIANCE_STANDARD-classed relationship
is rewritten to the minted compliance node and the test-generation edges are
guarded, but the `from` id (and a non-compliance `to` id) is copied verbatim
from the input.  Every edge references existing nodes provided every
relationship with truthy endpoints is COMPLIANCE_STANDARD-classed and has a
source id that some chunk detects as a requirement. -/
theorem C2_edges_reference_nodes (chunks : List ChunkIn)
    (tcs : Option (List TestCaseIn))
    (H : ∀ c ∈ chunks, ∀ rel ∈ c.relationships, ∀ s t,
        rel.source_id = some s → rel.target_id = some t → s ≠ "" → t ≠ "" →
        rel.target_class = "COMPLIANCE_STANDARD" ∧
        ∃ c2 ∈ chunks, ∃ r ∈ c2.detected_requirements, r.id = some s) :
    ∀ e ∈ (build_knowledge_graph_from_rag chunks tcs).edges,
      (∃ n ∈ (build_knowledge_graph_from_rag chunks tcs).nodes, n.id = e.from_) ∧
      (∃ n ∈ (build_knowledge_graph_from_rag chunks tcs).nodes, n.id = e.to_) := by
  by_cases hemp : chunks.isEmpty = true
  · unfold build_knowledge_graph_from_rag
    rw [if_pos hemp]
    intro e he
    simp at he
  · have hbase : StInv emptyBuildState := by
      refine ⟨?_, ?_, ?_, ?_⟩ <;> intro x hx <;> simp [emptyBuildState] at hx
    have hebase : EInvP (fun s => ∃ c2 ∈ chunks, ∃ r ∈ c2.detected_requirements,
        r.id = some s) emptyBuildState := by
      intro e he
      simp [emptyBuildState] at he
    have hStC : StInv (chunks.foldl processChunk emptyBuildState) :=
      stInv_foldl _ (fun st c h => stInv_processChunk st c h) chunks _ hbase
    have hEC : EInvP (fun s => ∃ c2 ∈ chunks, ∃ r ∈ c2.detected_requirements,
        r.id = some s) (chunks.foldl processChunk emptyBuildState) :=
      eInvP_chunkFold _ chunks _ hbase hebase H
    unfold build_knowledge_graph_from_rag
    rw [if_neg hemp]
    dsimp only
    -- the final state, with or without the test-case phase
    have main : ∀ stF : BuildState,
        StInv stF →
        EInvP (fun s => ∃ c2 ∈ chunks, ∃ r ∈ c2.detected_requirements,
          r.id = some s) stF →
        ExtendsB stF (chunks.foldl processChunk emptyBuildState) →
        ∀ e ∈ stF.edges,
          (∃ n ∈ stF.nodes, n.id = e.from_) ∧ (∃ n ∈ stF.nodes, n.id = e.to_) := by
      intro stF hSt hE hext e he
      rcases hE e he with htg | ⟨hto, s, hP, hsn, hfrom⟩
      · obtain ⟨_, _, hfromSeen, htoSeen⟩ := hSt.2.2.2 e he htg
        obtain ⟨n1, hn1, hn1id, _⟩ := hSt.2.1 _ hfromSeen
        obtain ⟨n2, hn2, hn2id, _⟩ := hSt.1 _ htoSeen
        exact ⟨⟨n1, hn1, hn1id⟩, ⟨n2, hn2, hn2id⟩⟩
      · obtain ⟨c2, hc2, r, hr, hrid⟩ := hP
        have hseen : s ∈ (chunks.foldl processChunk emptyBuildState).seen_requirements :=
          mem_seen_buildFold chunks emptyBuildState c2 hc2 r hr s hrid hsn
        obtain ⟨n1, hn1, hn1id, _⟩ := hSt.1 s (seen_req_mono hext hseen)
        refine ⟨⟨n1, hn1, by rw [hn1id, hfrom]⟩, hto⟩
    cases tcs with
    | none =>
      exact main _ hStC hEC (extendsB_refl _)
    | some l =>
      exact main _
        (stInv_foldl _ stInv_addTestCase l _ hStC)
        (eInvP_tcFold _ l _ hEC)
        (foldl_extends _ addTestCase_extends l _)

theorem c2_witness_hyp :
    ∀ c ∈ [c3_chunk1], ∀ rel ∈ c.relationships, ∀ s t,
      rel.source_id = some s → rel.target_id = some t → s ≠ "" → t ≠ "" →
      rel.target_class = "COMPLIANCE_STANDARD" ∧
      ∃ c2 ∈ [c3_chunk1], ∃ r ∈ c2.detected_requirements, r.id = some s := by
  intro c hc rel hr s t hs ht hsn htn
  have hc1 := List.mem_singleton.mp hc
  subst hc1
  have hr1 : rel = relToCompliance "GDPR" := by
    simpa [c3_chunk1] using hr
  subst hr1
  have hs1 : "REQ-001" = s := by
    simpa [relToCompliance] using hs
  refine ⟨rfl, c3_chunk1, List.mem_singleton_self _, ?_⟩
  refine ⟨c3_req_entity, by simp [c3_chunk1], ?_⟩
  rw [← hs1]
  rfl

/-- C2 witness: the amended theorem applied to the single self-contained
GDPR chunk (requirement detected, compliance-classed relationship). -/
theorem C2_edges_reference_nodes_witness :
    (∀ c ∈ [c3_chunk1], ∀ rel ∈ c.relationships, ∀ s t,
        rel.source_id = some s → rel.target_id = some t → s ≠ "" → t ≠ "" →
        rel.target_class = "COMPLIANCE_STANDARD" ∧
        ∃ c2 ∈ [c3_chunk1], ∃ r ∈ c2.detected_requirements, r.id = some s) ∧
    (∀ e ∈ (build_knowledge_graph_from_rag [c3_chunk1] none).edges,
      (∃ n ∈ (build_knowledge_graph_from_rag [c3_chunk1] none).nodes,
        n.id = e.from_) ∧
      (∃ n ∈ (build_knowledge_graph_from_rag [c3_chunk1] none).nodes,
        n.id = e.to_)) :=
  ⟨c2_witness_hyp, C2_edges_reference_nodes [c3_chunk1] none c2_witness_hyp⟩

/- ==================== C9 support lemmas ==================== -/

theorem not_sectionBreak_of_continuation {cur x : String}
    (h : is_continuation_sentence cur x = true) :
    matchesSectionBreak (stripCL x.data) = false := by
  unfold is_continuation_sentence at h
  by_cases h1 : x = ""
  · rw [if_pos h1] at h
    simp at h
  · rw [if_neg h1] at h
    dsimp only at h
    by_cases h2 : (stripCL x.data).isEmpty = true
    · rw [if_pos h2] at h
      simp at h
    · rw [if_neg h2] at h
      by_cases h3 : matchesSectionBreak (stripCL x.data) = true
      · rw [if_pos h3] at h
        simp at h
      · exact Bool.not_eq_true _ ▸ Bool.eq_false_iff.mpr (fun hx => h3 hx)

theorem expandLoop_mem (sentences : List SentObj) (maxc : Nat) :
    ∀ iters ni acc clen, ∀ x ∈ expandLoop sentences maxc ni iters acc clen,
      x ∈ acc ∨ ∃ cur, is_continuation_sentence cur x = true := by
  intro iters
  induction iters with
  | zero =>
    intro ni acc clen x hx
    exact Or.inl hx
  | succ n ih =>
    intro ni acc clen x hx
    unfold expandLoop at hx
    rcases hidx : sentences[ni]? with _ | sobj
    · rw [hidx] at hx
      exact Or.inl hx
    · rw [hidx] at hx
      dsimp only at hx
      by_cases hc : (!(is_continuation_sentence ((acc.getLast?).getD "") sobj.text)) = true
      · rw [if_pos hc] at hx
        exact Or.inl hx
      · rw [if_neg hc] at hx
        have hcont : is_continuation_sentence ((acc.getLast?).getD "") sobj.text = true := by
          simpa using hc
        by_cases hlen : clen + sobj.text.length + 1 > maxc
        · rw [if_pos hlen] at hx
          exact Or.inl hx
        · rw [if_neg hlen] at hx
          have hmem_acc2 : ∀ z ∈ acc ++ [sobj.text],
              z ∈ acc ∨ ∃ cur, is_continuation_sentence cur z = true := by
            intro z hz
            rcases List.mem_append.mp hz with hl | hr
            · exact Or.inl hl
            · have hz2 := List.mem_singleton.mp hr
              subst hz2
              exact Or.inr ⟨(acc.getLast?).getD "", hcont⟩
          by_cases hdone : (is_complete_thought (joinSpace (acc ++ [sobj.text])) &&
              decide ((joinSpace (acc ++ [sobj.text])).length > 80)) = true
          · rw [if_pos hdone] at hx
            exact hmem_acc2 x hx
          · rw [if_neg hdone] at hx
            rcases ih (ni + 1) (acc ++ [sobj.text]) (clen + sobj.text.length + 1) x hx with
              hl | hr
            · exact hmem_acc2 x hl
            · exact Or.inr hr

/-- C9: the Context Expander never crosses a detected section break — every
sentence its greedy loop appends (beyond those already accumulated) passed
`is_continuation_sentence`, which rejects every hard section-break marker, so
its stripped text matches none of the five break patterns; and on the
`Security:`/`Performance:` example the expanded text does not contain
`"Performance"`. -/
theorem C9_never_crosses_section_break (ctx : String) (maxC ni iters clen : Nat)
    (acc : List String) (x : String)
    (hx : x ∈ expandLoop (smart_split_sentences ctx) maxC ni iters acc clen)
    (hnew : x ∉ acc) :
    matchesSectionBreak (stripCL x.data) = false ∧
    pyInStr "Performance"
      (expand_requirement_context "Security: The application must encrypt data"
        "Security: The application must encrypt data. Performance: Fast loading times required.") =
      false := by
  constructor
  · rcases expandLoop_mem (smart_split_sentences ctx) maxC iters ni acc clen x hx with
      hl | ⟨cur, hcont⟩
    · exact absurd hl hnew
    · exact not_sectionBreak_of_continuation hcont
  · decide

/-- C9 witness: in the multi-factor-authentication example the loop appends
`It must use multi-factor authentication.`, which matches no section-break
pattern. -/
theorem C9_never_crosses_section_break_witness :
    ("It must use multi-factor authentication." ∈ expandLoop
        (smart_split_sentences "The system shall authenticate users. It must use multi-factor authentication. This ensures security.")
        300 1 2 ["The system shall authenticate users."] 36) ∧
    ("It must use multi-factor authentication." ∉
        (["The system shall authenticate users."] : List String)) ∧
    (matchesSectionBreak (stripCL "It must use multi-factor authentication.".data) = false ∧
     pyInStr "Performance"
       (expand_requirement_context "Security: The application must encrypt data"
         "Security: The application must encrypt data. Performance: Fast loading times required.") =
       false) :=
  ⟨by decide, by decide,
    C9_never_crosses_section_break
      "The system shall authenticate users. It must use multi-factor authentication. This ensures security."
      300 1 2 36 ["The system shall authenticate users."]
      "It must use multi-factor authentication." (by decide) (by decide)⟩

/- ==================== C7 support lemmas ==================== -/

/-- The whitespace flag carried past a block: the flag after scanning `a`
starting from `f`. -/
def flagEnd (f : Bool) (a : List Char) : Bool :=
  match a.getLast? with
  | none => f
  | some c => pyIsSpace c

theorem flagEnd_cons (f : Bool) (c : Char) (a : List Char) :
    flagEnd f (c :: a) = flagEnd (pyIsSpace c) a := by
  cases a with
  | nil => rfl
  | cons d t => rfl

theorem collapseAux_append (a : List Char) :
    ∀ (f : Bool) (b : List Char),
      collapseAux f (a ++ b) = collapseAux f a ++ collapseAux (flagEnd f a) b := by
  induction a with
  | nil => intro f b; rfl
  | cons c a' ih =>
    intro f b
    rw [List.cons_append, flagEnd_cons]
    by_cases hc : pyIsSpace c = true
    · by_cases hf : f = true
      · simp only [collapseAux, hc, hf, if_true]
        exact ih true b
      · have hf2 : f = false := by simpa using hf
        subst hf2
        simp only [collapseAux, hc, if_true, Bool.false_eq_true, if_false,
          List.cons_append]
        rw [ih true b]
    · have hc2 : pyIsSpace c = false := by simpa using hc
      simp only [collapseAux, hc2, Bool.false_eq_true, if_false, List.cons_append]
      rw [ih false b]

theorem collapseAux_length_le : ∀ (f : Bool) (l : List Char),
    (collapseAux f l).length ≤ l.length := by
  intro f l
  induction l generalizing f with
  | nil => simp [collapseAux]
  | cons c rest ih =>
    simp only [collapseAux]
    by_cases hc : pyIsSpace c = true
    · rw [if_pos hc]
      by_cases hf : f = true
      · rw [if_pos hf]
        exact Nat.le_succ_of_le (ih true)
      · rw [if_neg hf]
        simpa using ih true
    · rw [if_neg hc]
      simpa using ih false

theorem dropWhile_length_le (p : Char → Bool) (l : List Char) :
    (l.dropWhile p).length ≤ l.length := by
  induction l with
  | nil => simp [List.dropWhile]
  | cons a as ih =>
    simp only [List.dropWhile]
    split
    · exact Nat.le_succ_of_le ih
    · simp

theorem stripCL_length_le (l : List Char) : (stripCL l).length ≤ l.length := by
  unfold stripCL
  calc ((l.dropWhile pyIsSpace).reverse.dropWhile pyIsSpace).reverse.length
      = ((l.dropWhile pyIsSpace).reverse.dropWhile pyIsSpace).length := List.length_reverse _
    _ ≤ (l.dropWhile pyIsSpace).reverse.length :=
        dropWhile_length_le pyIsSpace (l.dropWhile pyIsSpace).reverse
    _ = (l.dropWhile pyIsSpace).length := List.length_reverse _
    _ ≤ l.length := dropWhile_length_le pyIsSpace l

theorem dropWhile_eq_self_of_length (p : Char → Bool) (l : List Char)
    (h : (l.dropWhile p).length = l.length) : l.dropWhile p = l := by
  cases l with
  | nil => rfl
  | cons c rest =>
    by_cases hc : p c = true
    · exfalso
      have hle := dropWhile_length_le p rest
      simp only [List.dropWhile, hc, if_true, List.length_cons] at h
      omega
    · simp only [List.dropWhile, hc, Bool.false_eq_true, if_false]

theorem stripCL_eq_self_of_length (l : List Char)
    (h : (stripCL l).length = l.length) : stripCL l = l := by
  have h1 : (l.dropWhile pyIsSpace).length = l.length := by
    have ha := dropWhile_length_le pyIsSpace l
    have hb : (stripCL l).length ≤ (l.dropWhile pyIsSpace).length := by
      unfold stripCL
      calc ((l.dropWhile pyIsSpace).reverse.dropWhile pyIsSpace).reverse.length
          = ((l.dropWhile pyIsSpace).reverse.dropWhile pyIsSpace).length :=
            List.length_reverse _
        _ ≤ (l.dropWhile pyIsSpace).reverse.length :=
            dropWhile_length_le pyIsSpace (l.dropWhile pyIsSpace).reverse
        _ = (l.dropWhile pyIsSpace).length := List.length_reverse _
    omega
  have h2 := dropWhile_eq_self_of_length pyIsSpace l h1
  unfold stripCL
  rw [h2]
  have h3 : (l.reverse.dropWhile pyIsSpace).length = l.reverse.length := by
    unfold stripCL at h
    rw [h2] at h
    rw [List.length_reverse] at h
    rw [List.length_reverse]
    exact h
  rw [dropWhile_eq_self_of_length pyIsSpace l.reverse h3, List.reverse_reverse]

theorem stripCL_is_prefix_dropWhile (l : List Char) :
    stripCL l <+: l.dropWhile pyIsSpace := by
  unfold stripCL
  have hs : (l.dropWhile pyIsSpace).reverse.dropWhile pyIsSpace <:+
      (l.dropWhile pyIsSpace).reverse := List.dropWhile_suffix pyIsSpace
  have hp := List.reverse_prefix.mpr hs
  rwa [List.reverse_reverse] at hp

theorem head_dropWhile_not (p : Char → Bool) (l : List Char) {c : Char}
    (h : (l.dropWhile p).head? = some c) : p c = false := by
  induction l with
  | nil => simp [List.dropWhile] at h
  | cons a rest ih =>
    by_cases ha : p a = true
    · simp only [List.dropWhile, ha, if_true] at h
      exact ih h
    · have ha2 : p a = false := by simpa using ha
      simp only [List.dropWhile, ha2, Bool.false_eq_true, if_false] at h
      have hac : a = c := by simpa using h
      subst hac
      exact ha2

theorem head_of_prefix {u v : List Char} (h : u <+: v) (hne : u ≠ []) :
    v.head? = u.head? := by
  obtain ⟨t, ht⟩ := h
  subst ht
  cases u with
  | nil => exact absurd rfl hne
  | cons a r => rfl

theorem stripCL_head_not_ws (l : List Char) {c : Char}
    (h : (stripCL l).head? = some c) : pyIsSpace c = false := by
  have hne : stripCL l ≠ [] := by
    intro hnil
    rw [hnil] at h
    simp at h
  have hp := stripCL_is_prefix_dropWhile l
  have hh := head_of_prefix hp hne
  exact head_dropWhile_not pyIsSpace l (by rw [hh, h])

theorem stripCL_getLast_not_ws (l : List Char) {c : Char}
    (h : (stripCL l).getLast? = some c) : pyIsSpace c = false := by
  unfold stripCL at h
  rw [List.getLast?_reverse] at h
  exact head_dropWhile_not pyIsSpace (l.dropWhile pyIsSpace).reverse h

theorem dropWhile_append_of_exists (p : Char → Bool) :
    ∀ (x y : List Char), (∃ c ∈ x, p c = false) →
      (x ++ y).dropWhile p = x.dropWhile p ++ y := by
  intro x
  induction x with
  | nil => intro y h; simp at h
  | cons a rest ih =>
    intro y h
    by_cases ha : p a = true
    · simp only [List.cons_append, List.dropWhile, ha, if_true]
      apply ih
      obtain ⟨c, hc, hpc⟩ := h
      rcases List.mem_cons.mp hc with h1 | h1
      · subst h1
        rw [ha] at hpc
        simp at hpc
      · exact ⟨c, h1, hpc⟩
    · have ha2 : p a = false := by simpa using ha
      simp only [List.cons_append, List.dropWhile, ha2, Bool.false_eq_true, if_false]
      rfl

theorem rstrip_append_length (a b : List Char)
    (hb : ∃ c ∈ b, pyIsSpace c = false) :
    a.length ≤ (rstripCL (a ++ b)).length := by
  unfold rstripCL
  rw [List.reverse_append]
  rw [dropWhile_append_of_exists pyIsSpace b.reverse a.reverse
    (by obtain ⟨c, hc, hpc⟩ := hb; exact ⟨c, List.mem_reverse.mpr hc, hpc⟩)]
  rw [List.length_reverse, List.length_append, List.length_reverse]
  omega

theorem exists_nonws_collapseAux :
    ∀ (f : Bool) (l : List Char), (∃ c ∈ l, pyIsSpace c = false) →
      ∃ c ∈ collapseAux f l, pyIsSpace c = false := by
  intro f l
  induction l generalizing f with
  | nil => intro h; simp at h
  | cons a rest ih =>
    intro h
    by_cases ha : pyIsSpace a = true
    · have hrest : ∃ c ∈ rest, pyIsSpace c = false := by
        obtain ⟨c, hc, hpc⟩ := h
        rcases List.mem_cons.mp hc with h1 | h1
        · subst h1
          rw [ha] at hpc
          simp at hpc
        · exact ⟨c, h1, hpc⟩
      obtain ⟨c, hc, hpc⟩ := ih f hrest
      have hc2 := ih true hrest
      simp only [collapseAux, ha, if_true]
      by_cases hf : f = true
      · rw [if_pos hf]
        exact hc2
      · rw [if_neg hf]
        obtain ⟨d, hd, hpd⟩ := hc2
        exact ⟨d, List.mem_cons_of_mem _ hd, hpd⟩
    · have ha2 : pyIsSpace a = false := by simpa using ha
      simp only [collapseAux, ha2, Bool.false_eq_true, if_false]
      exact ⟨a, List.mem_cons_self _ _, ha2⟩

theorem exists_nonws_of_strip_ne (l : List Char) (h : stripCL l ≠ []) :
    ∃ c ∈ l, pyIsSpace c = false := by
  by_contra hall
  push_neg at hall
  have hws : ∀ c ∈ l, pyIsSpace c = true := by
    intro c hc
    simpa using hall c hc
  have hdw : l.dropWhile pyIsSpace = [] := List.dropWhile_eq_nil_iff.mpr hws
  apply h
  unfold stripCL
  rw [hdw]
  rfl

theorem data_eq_nil_iff (s : String) : s.data = [] ↔ s = "" := by
  constructor
  · intro h
    cases s with
    | mk d =>
      have hd : d = [] := h
      rw [hd]
  · intro h
    rw [h]

theorem normalizeWs_fixed_collapse (s : String) (h1 : normalizeWs s = s) :
    collapseAux false s.data = s.data := by
  have hdata : stripCL (collapseAux false s.data) = s.data := by
    have := congrArg String.data h1
    simpa [normalizeWs, collapseWsCL] using this
  have hlen2 := collapseAux_length_le false s.data
  have hlen3 := stripCL_length_le (collapseAux false s.data)
  have hlen1 : (stripCL (collapseAux false s.data)).length = s.data.length := by
    rw [hdata]
  have heq : (stripCL (collapseAux false s.data)).length =
      (collapseAux false s.data).length := by omega
  have := stripCL_eq_self_of_length _ heq
  rw [← this, hdata]

theorem normalizeWs_fixed_strip (s : String) (h1 : normalizeWs s = s) :
    stripCL s.data = s.data := by
  have hc := normalizeWs_fixed_collapse s h1
  have hdata : stripCL (collapseAux false s.data) = s.data := by
    have := congrArg String.data h1
    simpa [normalizeWs, collapseWsCL] using this
  rw [hc] at hdata
  exact hdata

theorem normalizeWs_fixed_head (s : String) (h1 : normalizeWs s = s)
    (hne : s ≠ "") : ∃ c, s.data.head? = some c ∧ pyIsSpace c = false := by
  have hs := normalizeWs_fixed_strip s h1
  have hdne : s.data ≠ [] := fun h => hne ((data_eq_nil_iff s).mp h)
  rcases hh : s.data.head? with _ | c
  · cases hd : s.data with
    | nil => exact absurd hd hdne
    | cons a t => rw [hd] at hh; simp at hh
  · refine ⟨c, rfl, ?_⟩
    apply stripCL_head_not_ws s.data
    rw [hs]
    exact hh

theorem normalizeWs_fixed_last (s : String) (h1 : normalizeWs s = s)
    (hne : s ≠ "") : ∃ c, s.data.getLast? = some c ∧ pyIsSpace c = false := by
  have hs := normalizeWs_fixed_strip s h1
  have hdne : s.data ≠ [] := fun h => hne ((data_eq_nil_iff s).mp h)
  rcases hh : s.data.getLast? with _ | c
  · rw [List.getLast?_eq_none_iff] at hh
    exact absurd hh hdne
  · refine ⟨c, rfl, ?_⟩
    apply stripCL_getLast_not_ws s.data
    rw [hs]
    exact hh

theorem expandLoop_extends (sentences : List SentObj) (maxc : Nat) :
    ∀ iters ni acc clen, ∃ l, expandLoop sentences maxc ni iters acc clen = acc ++ l := by
  intro iters
  induction iters with
  | zero =>
    intro ni acc clen
    exact ⟨[], by simp [expandLoop]⟩
  | succ n ih =>
    intro ni acc clen
    unfold expandLoop
    rcases hidx : sentences[ni]? with _ | sobj
    · exact ⟨[], by simp⟩
    · dsimp only
      by_cases hc : (!(is_continuation_sentence ((acc.getLast?).getD "") sobj.text)) = true
      · rw [if_pos hc]
        exact ⟨[], by simp⟩
      · rw [if_neg hc]
        by_cases hlen : clen + sobj.text.length + 1 > maxc
        · rw [if_pos hlen]
          exact ⟨[], by simp⟩
        · rw [if_neg hlen]
          by_cases hdone : (is_complete_thought (joinSpace (acc ++ [sobj.text])) &&
              decide ((joinSpace (acc ++ [sobj.text])).length > 80)) = true
          · rw [if_pos hdone]
            exact ⟨[sobj.text], rfl⟩
          · rw [if_neg hdone]
            obtain ⟨l, hl⟩ := ih (ni + 1) (acc ++ [sobj.text]) (clen + sobj.text.length + 1)
            exact ⟨[sobj.text] ++ l, by rw [hl, List.append_assoc]⟩

theorem findIdxFrom_found (p : SentObj → Bool) :
    ∀ (l : List SentObj) (i j : Nat), findIdxFrom p i l = some j →
      i ≤ j ∧ ∃ x ∈ l, p x = true ∧ l[j - i]? = some x := by
  intro l
  induction l with
  | nil => intro i j h; simp [findIdxFrom] at h
  | cons x rest ih =>
    intro i j h
    unfold findIdxFrom at h
    by_cases hp : p x = true
    · rw [if_pos hp] at h
      have hij : i = j := Option.some.inj h
      subst hij
      refine ⟨Nat.le_refl i, x, List.mem_cons_self _ _, hp, ?_⟩
      simp
    · rw [if_neg hp] at h
      obtain ⟨hle, y, hmem, hpy, hget⟩ := ih (i + 1) j h
      refine ⟨Nat.le_of_succ_le hle, y, List.mem_cons_of_mem _ hmem, hpy, ?_⟩
      have hsub : j - i = (j - (i + 1)) + 1 := by omega
      rw [hsub]
      simpa using hget

theorem normalizeWs_append_length (s t : String)
    (h1 : normalizeWs s = s) (hs : s ≠ "")
    (ht : ∃ c ∈ t.data, pyIsSpace c = false) :
    s.length ≤ (normalizeWs (s ++ " " ++ t)).length := by
  have hcoll := normalizeWs_fixed_collapse s h1
  obtain ⟨ch, hch, hchw⟩ := normalizeWs_fixed_head s h1 hs
  obtain ⟨cl, hcl, hclw⟩ := normalizeWs_fixed_last s h1 hs
  have hdata : (s ++ " " ++ t).data = s.data ++ (' ' :: t.data) := by
    rw [String.data_append, String.data_append, List.append_assoc]
    congr 1
  have hflag : flagEnd false s.data = false := by
    unfold flagEnd
    rw [hcl]
    exact hclw
  have hcollapse : collapseAux false ((s ++ " " ++ t).data) =
      s.data ++ (' ' :: collapseAux true t.data) := by
    rw [hdata, collapseAux_append, hcoll, hflag]
    congr 1
  have hsd_ne : s.data ≠ [] := fun h => hs ((data_eq_nil_iff s).mp h)
  have hsd_nonws : ∃ c ∈ s.data, pyIsSpace c = false := by
    cases hsd : s.data with
    | nil => exact absurd hsd hsd_ne
    | cons a r =>
      rw [hsd] at hch
      have : a = ch := by simpa using hch
      subst this
      exact ⟨a, List.mem_cons_self _ _, hchw⟩
  have hdrop : (s.data ++ (' ' :: collapseAux true t.data)).dropWhile pyIsSpace =
      s.data.dropWhile pyIsSpace ++ (' ' :: collapseAux true t.data) :=
    dropWhile_append_of_exists pyIsSpace s.data _ hsd_nonws
  have hdrop_self : s.data.dropWhile pyIsSpace = s.data := by
    cases hsd : s.data with
    | nil => rfl
    | cons a r =>
      rw [hsd] at hch
      have ha : a = ch := by simpa using hch
      subst ha
      simp only [List.dropWhile, hchw, Bool.false_eq_true, if_false]
  have htail_nonws : ∃ c ∈ (' ' :: collapseAux true t.data), pyIsSpace c = false := by
    obtain ⟨c, hc, hpc⟩ := exists_nonws_collapseAux true t.data ht
    exact ⟨c, List.mem_cons_of_mem _ hc, hpc⟩
  have hlen : s.data.length ≤
      (stripCL (collapseAux false ((s ++ " " ++ t).data))).length := by
    rw [hcollapse]
    show s.data.length ≤
      (((s.data ++ (' ' :: collapseAux true t.data)).dropWhile
        pyIsSpace).reverse.dropWhile pyIsSpace).reverse.length
    rw [hdrop, hdrop_self]
    exact rstrip_append_length s.data _ htail_nonws
  exact hlen

/-- The length of a string is the length of its character list. -/
theorem str_length_data (s : String) : s.length = s.data.length := rfl

theorem continuation_strip_ne {cur x : String}
    (h : is_continuation_sentence cur x = true) : stripCL x.data ≠ [] := by
  intro hnil
  unfold is_continuation_sentence at h
  by_cases h1 : x = ""
  · rw [if_pos h1] at h
    simp at h
  · rw [if_neg h1] at h
    dsimp only at h
    rw [if_pos (by rw [hnil]; rfl)] at h
    simp at h

theorem nonws_join_head (r : String) (rs : List String)
    (h : ∃ c ∈ r.data, pyIsSpace c = false) :
    ∃ c ∈ (joinSpace (r :: rs)).data, pyIsSpace c = false := by
  cases rs with
  | nil => exact h
  | cons b bs =>
    obtain ⟨c, hc, hpc⟩ := h
    refine ⟨c, ?_, hpc⟩
    show c ∈ (r ++ " " ++ joinSpace (b :: bs)).data
    rw [String.data_append, String.data_append]
    exact List.mem_append_left _ (List.mem_append_left _ hc)

theorem normalized_has_nonws (s : String) (h1 : normalizeWs s = s)
    (hs : s ≠ "") : ∃ c ∈ s.data, pyIsSpace c = false := by
  obtain ⟨ch, hch, hchw⟩ := normalizeWs_fixed_head s h1 hs
  cases hsd : s.data with
  | nil => rw [hsd] at hch; simp at hch
  | cons a r =>
    rw [hsd] at hch
    have ha : a = ch := by simpa using hch
    subst ha
    exact ⟨a, List.mem_cons_self _ _, hchw⟩

/-- C7 counterexample: an input sentence with surrounding whitespace that the
chunk does not contain comes back stripped — the output is strictly shorter
than the input. -/
theorem C7_counterexample :
    (expand_requirement_context "  The system shall encrypt data  "
        "Unrelated words here").length <
      ("  The system shall encrypt data  " : String).length := by
  decide

/-- C7 (amended): the expander's output need not be at least as long as the
raw input (stripping and fuzzy relocation can shorten it); the length
guarantee holds when the input sentence is already trimmed and
whitespace-normalised and every chunk sentence the fuzzy search accepts is
the input sentence itself — then the output extends the input. -/
theorem C7_expansion_length (s ctx : String) (maxS maxC : Nat)
    (h0 : pyStrip s = s) (h1 : normalizeWs s = s)
    (h2 : ∀ sobj ∈ smart_split_sentences (pyStrip ctx),
        fuzzyLocate (normJoinLower s) sobj = true → sobj.text = s) :
    s.length ≤ (expand_requirement_context s ctx maxS maxC).length := by
  unfold expand_requirement_context
  by_cases hse : s = ""
  · subst hse
    exact Nat.zero_le _
  · by_cases hce : ctx = ""
    · rw [if_pos (by simp [hce])]
    · rw [if_neg (by simp [hse, hce])]
      dsimp only
      rw [h0]
      by_cases hcomp : (is_complete_thought s && decide (s.length > 50)) = true
      · rw [if_pos hcomp]
      · rw [if_neg hcomp]
        by_cases hempty : (smart_split_sentences (pyStrip ctx)).isEmpty = true
        · rw [if_pos hempty]
        · rw [if_neg hempty]
          rcases hfind : findIdxFrom (fuzzyLocate (normJoinLower s)) 0
              (smart_split_sentences (pyStrip ctx)) with _ | idx
          · exact Nat.le_refl _
          · dsimp only
            obtain ⟨-, x, hxmem, hxfuzzy, hxget⟩ :=
              findIdxFrom_found (fuzzyLocate (normJoinLower s))
                (smart_split_sentences (pyStrip ctx)) 0 idx hfind
            rw [Nat.sub_zero] at hxget
            have hxtext : x.text = s := h2 x hxmem hxfuzzy
            have hbase : (((smart_split_sentences (pyStrip ctx))[idx]?).map
                SentObj.text).getD "" = s := by
              rw [hxget]
              simpa using hxtext
            rw [hbase]
            obtain ⟨rest, hrest⟩ := expandLoop_extends
              (smart_split_sentences (pyStrip ctx)) maxC (maxS - 1) (idx + 1)
              [s] s.length
            rw [hrest]
            cases rest with
            | nil =>
              rw [List.append_nil]
              show s.length ≤ (normalizeWs (joinSpace [s])).length
              have : joinSpace [s] = s := rfl
              rw [this, h1]
            | cons r rs =>
              have hjoin : joinSpace ([s] ++ r :: rs) =
                  s ++ " " ++ joinSpace (r :: rs) := rfl
              rw [hjoin]
              apply normalizeWs_append_length s (joinSpace (r :: rs)) h1 hse
              have hrmem : r ∈ expandLoop (smart_split_sentences (pyStrip ctx))
                  maxC (idx + 1) (maxS - 1) [s] s.length := by
                rw [hrest]
                exact List.mem_append_right _ (List.mem_cons_self _ _)
              have hrnonws : ∃ c ∈ r.data, pyIsSpace c = false := by
                rcases expandLoop_mem (smart_split_sentences (pyStrip ctx)) maxC
                  (maxS - 1) (idx + 1) [s] s.length r hrmem with hin | ⟨cur, hcont⟩
                · have hrs : r = s := List.mem_singleton.mp hin
                  subst hrs
                  exact normalized_has_nonws r h1 hse
                · exact exists_nonws_of_strip_ne r.data (continuation_strip_ne hcont)
              exact nonws_join_head r rs hrnonws

/-- C7 witness: the amended theorem applied to a trimmed, normalised sentence
that the chunk contains verbatim. -/
theorem C7_expansion_length_witness :
    (pyStrip "The data shall sync fast." = "The data shall sync fast.") ∧
    (normalizeWs "The data shall sync fast." = "The data shall sync fast.") ∧
    (∀ sobj ∈ smart_split_sentences
        (pyStrip "The data shall sync fast. it keeps working well."),
      fuzzyLocate (normJoinLower "The data shall sync fast.") sobj = true →
        sobj.text = "The data shall sync fast.") ∧
    ("The data shall sync fast." : String).length ≤
      (expand_requirement_context "The data shall sync fast."
        "The data shall sync fast. it keeps working well." 3 300).length :=
  ⟨by decide, by decide, by decide,
    C7_expansion_length "The data shall sync fast."
      "The data shall sync fast. it keeps working well." 3 300
      (by decide) (by decide) (by decide)⟩

/- ==================== C8 support lemmas ==================== -/

theorem dropWhile_eq_self_of_head_false (p : Char → Bool) (l : List Char)
    (h : ∀ c, l.head? = some c → p c = false) : l.dropWhile p = l := by
  cases l with
  | nil => rfl
  | cons a t =>
    have ha := h a rfl
    simp only [List.dropWhile, ha, Bool.false_eq_true, if_false]

theorem stripCL_idem (l : List Char) : stripCL (stripCL l) = stripCL l := by
  rcases hy : stripCL l with _ | ⟨a, t⟩
  · rfl
  · rw [← hy]
    have hhead : ∀ c, (stripCL l).head? = some c → pyIsSpace c = false :=
      fun c hc => stripCL_head_not_ws l hc
    have hlast : ∀ c, (stripCL l).reverse.head? = some c → pyIsSpace c = false := by
      intro c hc
      rw [List.head?_reverse] at hc
      exact stripCL_getLast_not_ws l hc
    show (((stripCL l).dropWhile pyIsSpace).reverse.dropWhile pyIsSpace).reverse =
      stripCL l
    rw [dropWhile_eq_self_of_head_false pyIsSpace (stripCL l) hhead]
    rw [dropWhile_eq_self_of_head_false pyIsSpace (stripCL l).reverse hlast]
    exact List.reverse_reverse _

theorem pyStrip_pyStrip (s : String) : pyStrip (pyStrip s) = pyStrip s := by
  show (⟨stripCL (stripCL s.data)⟩ : String) = ⟨stripCL s.data⟩
  rw [stripCL_idem]

theorem pyStrip_normalizeWs (s : String) :
    pyStrip (normalizeWs s) = normalizeWs s := by
  show (⟨stripCL (stripCL (collapseWsCL s.data))⟩ : String) =
    ⟨stripCL (collapseWsCL s.data)⟩
  rw [stripCL_idem]

theorem expand_empty_ctx (y : String) (a b : Nat) :
    expand_requirement_context y "" a b = y := by
  unfold expand_requirement_context
  rw [if_pos (by simp)]

theorem pyStrip_expand_fixed (s ctx : String) (a b : Nat) (hce : ctx ≠ "") :
    pyStrip (expand_requirement_context s ctx a b) =
      expand_requirement_context s ctx a b := by
  unfold expand_requirement_context
  by_cases hse : s = ""
  · rw [if_pos (by simp [hse])]
    rw [hse]
    decide
  · rw [if_neg (by simp [hse, hce])]
    dsimp only
    by_cases h1 : (is_complete_thought (pyStrip s) &&
        decide ((pyStrip s).length > 50)) = true
    · rw [if_pos h1]
      exact pyStrip_pyStrip s
    · rw [if_neg h1]
      by_cases h2 : (smart_split_sentences (pyStrip ctx)).isEmpty = true
      · rw [if_pos h2]
        exact pyStrip_pyStrip s
      · rw [if_neg h2]
        rcases hfind : findIdxFrom (fuzzyLocate (normJoinLower (pyStrip s))) 0
            (smart_split_sentences (pyStrip ctx)) with _ | idx
        · exact pyStrip_pyStrip s
        · exact pyStrip_normalizeWs _

theorem expand_fixed_of_complete (y ctx : String) (a b : Nat)
    (hy : pyStrip y = y) (hcomp : is_complete_thought y = true)
    (hlen : 50 < y.length) :
    expand_requirement_context y ctx a b = y := by
  by_cases hce : ctx = ""
  · rw [hce]
    exact expand_empty_ctx y a b
  · have hyne : y ≠ "" := by
      intro h
      rw [h] at hlen
      have : ("" : String).length = 0 := rfl
      omega
    unfold expand_requirement_context
    rw [if_neg (by simp [hyne, hce])]
    dsimp only
    rw [hy]
    rw [if_pos (by simp [hcomp, hlen])]

/-- C8 counterexample: re-expanding the expander's own output against the
same chunk can relocate to a different (earlier) sentence — here
`x shall ok.` fuzzily matches inside the first output — and return a
different text, so the expander is not idempotent. -/
theorem C8_counterexample :
    expand_requirement_context "The box shall ok"
        "x shall ok. The box shall ok. yes" = "The box shall ok. yes" ∧
    expand_requirement_context "The box shall ok. yes"
        "x shall ok. The box shall ok. yes" = "x shall ok. The box shall ok. yes" ∧
    expand_requirement_context
        (expand_requirement_context "The box shall ok"
          "x shall ok. The box shall ok. yes")
        "x shall ok. The box shall ok. yes" ≠
      expand_requirement_context "The box shall ok"
        "x shall ok. The box shall ok. yes" :=
  ⟨by decide, by decide, by decide⟩

/-- C8 (amended): the expander is not idempotent in general (re-applying can
relocate the fuzzy match); it is a fixed point on its own output whenever
that output is a complete thought longer than 50 characters, since the
early-return then fires. -/
theorem C8_idempotent_when_complete (s ctx : String) (maxS maxC : Nat)
    (hcomp : is_complete_thought
      (expand_requirement_context s ctx maxS maxC) = true)
    (hlen : 50 < (expand_requirement_context s ctx maxS maxC).length) :
    expand_requirement_context
        (expand_requirement_context s ctx maxS maxC) ctx maxS maxC =
      expand_requirement_context s ctx maxS maxC := by
  by_cases hce : ctx = ""
  · rw [hce]
    exact expand_empty_ctx _ maxS maxC
  · exact expand_fixed_of_complete _ ctx maxS maxC
      (pyStrip_expand_fixed s ctx maxS maxC hce) hcomp hlen

/-- C8 witness: the amended theorem applied to the multi-factor example,
whose expansion is a 100-character complete thought. -/
theorem C8_idempotent_when_complete_witness :
    (is_complete_thought (expand_requirement_context
        "The system shall authenticate users"
        "The system shall authenticate users. It must use multi-factor authentication. This ensures security."
        3 300) = true) ∧
    (50 < (expand_requirement_context "The system shall authenticate users"
        "The system shall authenticate users. It must use multi-factor authentication. This ensures security."
        3 300).length) ∧
    expand_requirement_context
        (expand_requirement_context "The system shall authenticate users"
          "The system shall authenticate users. It must use multi-factor authentication. This ensures security."
          3 300)
        "The system shall authenticate users. It must use multi-factor authentication. This ensures security."
        3 300 =
      expand_requirement_context "The system shall authenticate users"
        "The system shall authenticate users. It must use multi-factor authentication. This ensures security."
        3 300 :=
  ⟨by decide, by decide,
    C8_idempotent_when_complete "The system shall authenticate users"
      "The system shall authenticate users. It must use multi-factor authentication. This ensures security."
      3 300 (by decide) (by decide)⟩
